import Mathlib

/-!
Shallow embedding of the Minesweeper board engine from `minesweeper.tsx`.

The source is a React component; its game logic lives in the callbacks
`initializeGrid`, `revealCell`, `toggleFlag`, `revealAdjacent` and the
win-check effect.  We embed that logic as pure Lean functions:

* the grid is a `List (List CellState)` mirroring the `CellState[][]` array;
* `Math.random()` draws are modelled by an explicit stream of natural-number
  pairs, reduced modulo `rows` / `cols` (matching
  `Math.floor(Math.random() * rows)`, which always lands in `[0, rows)`);
  the `while` loop of mine placement consumes the stream and returns `none`
  when the stream is exhausted before the loop condition is satisfied —
  a finite observation of the (possibly non-terminating) loop;
* JavaScript property accesses on `undefined` (out-of-range array reads)
  become `Except.error JsErr.undefinedAccess`;
* React state (`grid`, `gameStatus`, `firstClick`) is bundled in `GameState`;
  the stale-closure semantics of the queued functional updates is modelled
  exactly: `revealUpdater` is the body of the `setGrid` updater with the
  render-time values of `gameStatus` and `firstClick` passed explicitly.
-/

/-- Mirrors the `CellState` record of the source. -/
structure CellState where
  isMine : Bool
  isRevealed : Bool
  isFlagged : Bool
  neighborMines : Nat
deriving DecidableEq, Repr

/-- A fresh cell: `{ isMine: false, isRevealed: false, isFlagged: false, neighborMines: 0 }`. -/
def mkCell : CellState := ⟨false, false, false, 0⟩

/-- The `CellState[][]` grid. -/
abbrev Grid : Type := List (List CellState)

/-- Mirrors `GameStatus = "playing" | "won" | "lost"`. -/
inductive GameStatus where
  | playing
  | won
  | lost
deriving DecidableEq, Repr

/-- Error outcomes of the JavaScript code: `undefinedAccess` models a thrown
`TypeError` from reading a property of `undefined` (out-of-range indexing);
`noTermination` marks that the mine-placement `while` loop did not finish
within the supplied stream of random draws. -/
inductive JsErr where
  | undefinedAccess
  | noTermination
deriving DecidableEq, Repr

/-- The component state driving the game logic: the grid, the status, the
`firstClick` flag, and the current difficulty `(rows, cols, mines)`. -/
structure GameState where
  rows : Nat
  cols : Nat
  mines : Nat
  grid : Grid
  status : GameStatus
  firstClick : Bool
deriving DecidableEq, Repr

/-- Read `grid[r][c]` with natural indices; `none` when out of range. -/
def cellAtN (g : Grid) (r c : Nat) : Option CellState :=
  match g[r]? with
  | none => none
  | some row => row[c]?

/-- Read `grid[row][col]` with JavaScript (integer) indices; `none` models
`undefined` / a thrown access. -/
def cellAt (g : Grid) (row col : Int) : Option CellState :=
  if row < 0 ∨ col < 0 then none
  else cellAtN g row.toNat col.toNat

/-- In-place update `grid[r][c] = f grid[r][c]` (a no-op out of range,
which only happens on positions the source never touches). -/
def updateCellN (g : Grid) (r c : Nat) (f : CellState → CellState) : Grid :=
  g.set r ((g.getD r []).set c (f ((g.getD r []).getD c mkCell)))

/-- The bounds test `nr >= 0 && nr < rows && nc >= 0 && nc < cols`. -/
def inB (rows cols : Nat) (row col : Int) : Prop :=
  0 ≤ row ∧ row < (rows : Int) ∧ 0 ≤ col ∧ col < (cols : Int)

instance (rows cols : Nat) (row col : Int) : Decidable (inB rows cols row col) := by
  unfold inB; infer_instance

/-- The 9 offsets `(dr, dc)` visited by the nested `for (dr = -1..1) for (dc = -1..1)`
loops of the source, in loop order (the source does not skip `(0,0)`). -/
def offsets : List (Int × Int) :=
  [(-1, -1), (-1, 0), (-1, 1), (0, -1), (0, 0), (0, 1), (1, -1), (1, 0), (1, 1)]

/-- `nr >= 0 && nr < rows && nc >= 0 && nc < cols && newGrid[nr][nc].isMine`. -/
def mineAtB (rows cols : Nat) (g : Grid) (row col : Int) : Bool :=
  decide (inB rows cols row col) &&
    (((g.getD row.toNat []).getD col.toNat mkCell).isMine)

/-- `nr >= 0 && nr < rows && nc >= 0 && nc < cols && grid[nr][nc].isFlagged`. -/
def flaggedAtB (rows cols : Nat) (g : Grid) (row col : Int) : Bool :=
  decide (inB rows cols row col) &&
    (((g.getD row.toNat []).getD col.toNat mkCell).isFlagged)

/-- The count computed for `newGrid[row][col].neighborMines`: the number of
in-bounds mine cells among the 9 offsets (the `(0,0)` offset contributes
nothing for the non-mine cells the source applies this to). -/
def codeNeighborMines (rows cols : Nat) (g : Grid) (r c : Nat) : Nat :=
  (offsets.filter fun d => mineAtB rows cols g ((r : Int) + d.1) ((c : Int) + d.2)).length

/-- The all-blank `rows × cols` grid the source builds with
`Array(rows).fill(null).map(() => Array(cols).fill(null).map(() => ({...})))`. -/
def blankGrid (rows cols : Nat) : Grid :=
  List.replicate rows (List.replicate cols mkCell)

/-- One random position drawn by
`Math.floor(Math.random() * rows)` / `Math.floor(Math.random() * cols)`. -/
def drawPos (rows cols : Nat) (d : Nat × Nat) : Nat × Nat :=
  (d.1 % rows, d.2 % cols)

/-- The `while (minePositions.size < mines)` loop.  `acc` is the insertion-order
listing of the `Set` contents; a draw equal to the avoided cell is skipped
(`continue`), a duplicate draw leaves the set unchanged.  Returns `none` when
the random stream is exhausted before the set reaches size `mines`. -/
def placeMines (rows cols mines : Nat) (avoid : Option (Int × Int)) :
    List (Nat × Nat) → List (Nat × Nat) → Option (List (Nat × Nat))
  | [], acc => if acc.length < mines then none else some acc
  | d :: rest, acc =>
    if acc.length < mines then
      let p := drawPos rows cols d
      let skip : Bool :=
        match avoid with
        | some a => decide ((p.1 : Int) = a.1) && decide ((p.2 : Int) = a.2)
        | none => false
      if skip then placeMines rows cols mines avoid rest acc
      else if p ∈ acc then placeMines rows cols mines avoid rest acc
      else placeMines rows cols mines avoid rest (acc ++ [p])
    else some acc

/-- `minePositions.forEach(pos => { newGrid[row][col].isMine = true })`. -/
def setMines (g : Grid) (ps : List (Nat × Nat)) : Grid :=
  ps.foldl (fun acc p => updateCellN acc p.1 p.2 fun c => { c with isMine := true }) g

/-- The neighbor-count pass: every non-mine cell gets
`neighborMines = codeNeighborMines`; mine cells are left untouched.
The source mutates in place, but the pass only reads `isMine`, which it never
writes, so it is the pointwise map written here. -/
def computeCounts (rows cols : Nat) (g : Grid) : Grid :=
  (List.range rows).map fun r => (List.range cols).map fun c =>
    let cell := (g.getD r []).getD c mkCell
    if cell.isMine then cell
    else { cell with neighborMines := codeNeighborMines rows cols g r c }

/-- `initializeGrid(avoidRow?, avoidCol?)`: blank grid, random mine placement
avoiding `avoid`, then neighbor counts.  `none` when the placement loop did
not terminate on the supplied stream. -/
def initializeGrid (rows cols mines : Nat) (avoid : Option (Int × Int))
    (rand : List (Nat × Nat)) : Option Grid :=
  (placeMines rows cols mines avoid rand []).map fun ps =>
    computeCounts rows cols (setMines (blankGrid rows cols) ps)

/-- `newGrid.forEach(row => row.forEach(cell => { if (cell.isMine) cell.isRevealed = true }))`. -/
def revealAllMines (g : Grid) : Grid :=
  g.map fun row => row.map fun c =>
    if c.isMine then { c with isRevealed := true } else c

/-- `toggleFlag(row, col)`: no-op when not playing; throws on an out-of-bounds
access; flips `isFlagged` on an unrevealed cell; returns the (cloned) grid
unchanged on a revealed cell. -/
def toggleFlag (st : GameState) (row col : Int) : Except JsErr GameState :=
  if st.status ≠ GameStatus.playing then Except.ok st
  else
    match cellAt st.grid row col with
    | none => Except.error JsErr.undefinedAccess
    | some cell =>
      if cell.isRevealed then Except.ok st
      else Except.ok { st with
        grid := updateCellN st.grid row.toNat col.toNat fun c =>
          { c with isFlagged := !c.isFlagged } }

/-! ### Flood fill (the `queue`/`visited` loop of `revealCell`) -/

/-- The inner `for (dr...) for (dc...)` loop of the flood fill: for each
offset in `ds`, if the neighbor is in bounds and neither revealed, flagged,
nor a mine, reveal it, and record it for the queue when its count is zero. -/
def floodNeighbors (rows cols : Nat) :
    Grid → Int × Int → List (Int × Int) → Grid × List (Int × Int)
  | g, _, [] => (g, [])
  | g, p, d :: ds =>
    let qr := p.1 + d.1
    let qc := p.2 + d.2
    if inB rows cols qr qc then
      let c := (g.getD qr.toNat []).getD qc.toNat mkCell
      if ¬c.isRevealed ∧ ¬c.isFlagged ∧ ¬c.isMine then
        let g2 := updateCellN g qr.toNat qc.toNat fun x => { x with isRevealed := true }
        let s := floodNeighbors rows cols g2 p ds
        (s.1, if c.neighborMines = 0 then (qr, qc) :: s.2 else s.2)
      else floodNeighbors rows cols g p ds
    else floodNeighbors rows cols g p ds

/-- Number of unrevealed cells; the first component of the flood-fill
termination measure. -/
def unrevealedCount (g : Grid) : Nat :=
  (g.map fun row => row.countP fun c => !c.isRevealed).sum

theorem countP_set_le_of_neg {α} (p : α → Bool) (l : List α) (n : Nat) (a : α)
    (ha : p a = false) : (l.set n a).countP p ≤ l.countP p := by
  induction l generalizing n with
  | nil => simp
  | cons hd tl ih =>
    cases n with
    | zero => simp [List.countP_cons, ha]
    | succ m =>
      simp only [List.set_cons_succ, List.countP_cons]
      have := ih m
      omega

theorem sum_map_set_le {α} (f : α → Nat) (l : List α) (n : Nat) (a : α)
    (h : ∀ b, l[n]? = some b → f a ≤ f b) :
    ((l.set n a).map f).sum ≤ (l.map f).sum := by
  induction l generalizing n with
  | nil => simp
  | cons hd tl ih =>
    cases n with
    | zero =>
      have := h hd (by simp)
      simp only [List.set_cons_zero, List.map_cons, List.sum_cons]
      omega
    | succ m =>
      simp only [List.set_cons_succ, List.map_cons, List.sum_cons]
      have := ih m (fun b hb => h b (by simpa using hb))
      omega

theorem unrevealedCount_updateCellN_le (g : Grid) (r c : Nat) :
    unrevealedCount (updateCellN g r c fun x => { x with isRevealed := true }) ≤
      unrevealedCount g := by
  unfold unrevealedCount updateCellN
  apply sum_map_set_le
  intro row hrow
  have hgd : g.getD r [] = row := by
    simp [List.getD, hrow]
  rw [hgd]
  apply countP_set_le_of_neg
  simp

theorem floodNeighbors_count_le (rows cols : Nat) (ds : List (Int × Int)) :
    ∀ (g : Grid) (p : Int × Int),
      unrevealedCount (floodNeighbors rows cols g p ds).1 ≤ unrevealedCount g := by
  induction ds with
  | nil => intro g p; simp [floodNeighbors]
  | cons d ds ih =>
    intro g p
    simp only [floodNeighbors]
    split
    · split
      · exact le_trans (ih _ _) (unrevealedCount_updateCellN_le _ _ _)
      · exact ih _ _
    · exact ih _ _

theorem floodNeighbors_pushes_inB (rows cols : Nat) (ds : List (Int × Int)) :
    ∀ (g : Grid) (p : Int × Int) (q : Int × Int),
      q ∈ (floodNeighbors rows cols g p ds).2 → inB rows cols q.1 q.2 := by
  induction ds with
  | nil => intro g p q hq; simp [floodNeighbors] at hq
  | cons d ds ih =>
    intro g p q hq
    simp only [floodNeighbors] at hq
    split at hq
    · split at hq
      · split at hq
        · rcases List.mem_cons.mp hq with h | h
          · subst h; assumption
          · exact ih _ _ _ h
        · exact ih _ _ _ hq
      · exact ih _ _ _ hq
    · exact ih _ _ _ hq

/-- The finite set of in-bounds positions, for the termination measure. -/
def inBoundsSet (rows cols : Nat) : Finset (Int × Int) :=
  (Finset.range rows ×ˢ Finset.range cols).image fun p => ((p.1 : Int), (p.2 : Int))

/-- Number of out-of-bounds entries in the queue, for the termination measure. -/
def oobCount (rows cols : Nat) (Q : List (Int × Int)) : Nat :=
  (Q.filter fun p => !decide (inB rows cols p.1 p.2)).length

theorem mem_inBoundsSet (rows cols : Nat) (q : Int × Int) :
    q ∈ inBoundsSet rows cols ↔ inB rows cols q.1 q.2 := by
  unfold inBoundsSet inB
  constructor
  · rintro h
    simp only [Finset.mem_image, Finset.mem_product, Finset.mem_range] at h
    obtain ⟨⟨a, b⟩, ⟨ha, hb⟩, rfl⟩ := h
    refine ⟨?_, ?_, ?_, ?_⟩ <;> simp <;> omega
  · rintro ⟨h1, h2, h3, h4⟩
    simp only [Finset.mem_image, Finset.mem_product, Finset.mem_range]
    refine ⟨(q.1.toNat, q.2.toNat), ⟨?_, ?_⟩, ?_⟩
    · omega
    · omega
    · simp [Int.toNat_of_nonneg h1, Int.toNat_of_nonneg h3]

theorem lex3 {a1 b1 a2 b2 a3 b3 : Nat}
    (h : a1 < b1 ∨ (a1 = b1 ∧ (a2 < b2 ∨ (a2 = b2 ∧ a3 < b3)))) :
    Prod.Lex (fun x y => x < y) (Prod.Lex (fun x y => x < y) fun x y => x < y)
      (a1, a2, a3) (b1, b2, b3) := by
  rcases h with h | ⟨rfl, h⟩
  · exact Prod.Lex.left _ _ h
  · rcases h with h | ⟨rfl, h⟩
    · exact Prod.Lex.right _ (Prod.Lex.left _ _ h)
    · exact Prod.Lex.right _ (Prod.Lex.right _ h)

theorem oobCount_append (rows cols : Nat) (l1 l2 : List (Int × Int)) :
    oobCount rows cols (l1 ++ l2) = oobCount rows cols l1 + oobCount rows cols l2 := by
  simp [oobCount, List.filter_append]

theorem oobCount_cons (rows cols : Nat) (p : Int × Int) (l : List (Int × Int)) :
    oobCount rows cols (p :: l) =
      (if inB rows cols p.1 p.2 then 0 else 1) + oobCount rows cols l := by
  by_cases hp : inB rows cols p.1 p.2 <;> simp [oobCount, List.filter_cons, hp] <;> omega

theorem oobCount_pushes (rows cols : Nat) (g : Grid) (p : Int × Int) (ds : List (Int × Int)) :
    oobCount rows cols (floodNeighbors rows cols g p ds).2 = 0 := by
  unfold oobCount
  rw [List.length_eq_zero]
  rw [List.filter_eq_nil_iff]
  intro q hq
  have := floodNeighbors_pushes_inB rows cols ds g p q hq
  simp [this]

/-- The `while (queue.length > 0)` flood-fill loop: pop a position, skip it
when already visited, otherwise reveal its eligible neighbors and enqueue the
zero-count ones. -/
def floodFill (rows cols : Nat) :
    Grid → List (Int × Int) → Finset (Int × Int) → Grid
  | g, [], _ => g
  | g, p :: rest, V =>
    if p ∈ V then floodFill rows cols g rest V
    else
      let s := floodNeighbors rows cols g p offsets
      floodFill rows cols s.1 (rest ++ s.2) (insert p V)
termination_by g Q V =>
  (unrevealedCount g, (inBoundsSet rows cols \ V).card + oobCount rows cols Q, Q.length)
decreasing_by
  · apply lex3
    right
    refine ⟨rfl, ?_⟩
    rw [oobCount_cons]
    by_cases hp : inB rows cols p.1 p.2
    · right
      simp [hp]
    · left
      simp [hp]
  · rcases Nat.lt_or_ge (unrevealedCount (floodNeighbors rows cols g p offsets).1)
      (unrevealedCount g) with hlt | hge
    · exact lex3 (Or.inl hlt)
    · have heq : unrevealedCount (floodNeighbors rows cols g p offsets).1 = unrevealedCount g :=
        Nat.le_antisymm (floodNeighbors_count_le rows cols offsets g p) hge
      apply lex3
      right
      refine ⟨heq, ?_⟩
      left
      rw [oobCount_append, oobCount_pushes, oobCount_cons]
      by_cases hpB : inB rows cols p.1 p.2
      · have hpIB : p ∈ inBoundsSet rows cols := (mem_inBoundsSet rows cols p).mpr hpB
        have hsub : inBoundsSet rows cols \ insert p V ⊆ (inBoundsSet rows cols \ V).erase p := by
          intro x hx
          simp only [Finset.mem_sdiff, Finset.mem_erase, Finset.mem_insert, not_or] at hx ⊢
          tauto
        have h1 : ((inBoundsSet rows cols \ V).erase p).card <
            (inBoundsSet rows cols \ V).card := by
          apply Finset.card_erase_lt_of_mem
          simp only [Finset.mem_sdiff]
          exact ⟨hpIB, by assumption⟩
        have h2 := Finset.card_le_card hsub
        simp only [hpB, if_true]
        omega
      · have hpIB : p ∉ inBoundsSet rows cols := fun hc => hpB ((mem_inBoundsSet rows cols p).mp hc)
        have hE : inBoundsSet rows cols \ insert p V = inBoundsSet rows cols \ V := by
          ext x
          simp only [Finset.mem_sdiff, Finset.mem_insert, not_or]
          constructor
          · rintro ⟨h1, h2, h3⟩; exact ⟨h1, h3⟩
          · rintro ⟨h1, h3⟩
            refine ⟨h1, ?_, h3⟩
            rintro rfl
            exact hpIB h1
        rw [hE]
        simp [hpIB, hpB]

/-! ### The reveal / chord / win-check operations -/

/-- Body of the functional update queued by `revealCell`'s `setGrid`, with the
render-time (possibly stale) values of `gameStatus` and `firstClick` passed
explicitly as `status0` / `fc0`.  Returns the new grid together with two
flags: whether `setGameStatus("lost")` was called, and whether
`setFirstClick(false)` was called. -/
def revealUpdater (rand : List (Nat × Nat)) (rows cols mines : Nat) (status0 : GameStatus)
    (fc0 : Bool) (g : Grid) (row col : Int) : Except JsErr (Grid × Bool × Bool) :=
  if status0 ≠ GameStatus.playing then Except.ok (g, false, false)
  else if fc0 then
    match initializeGrid rows cols mines (some (row, col)) rand with
    | some g2 => Except.ok (g2, false, true)
    | none => Except.error JsErr.noTermination
  else
    match cellAt g row col with
    | none => Except.error JsErr.undefinedAccess
    | some cell =>
      if cell.isRevealed ∨ cell.isFlagged then Except.ok (g, false, false)
      else
        let g1 := updateCellN g row.toNat col.toNat fun x => { x with isRevealed := true }
        if cell.isMine then Except.ok (revealAllMines g1, true, false)
        else if cell.neighborMines = 0 then
          Except.ok (floodFill rows cols g1 [(row, col)] ∅, false, false)
        else Except.ok (g1, false, false)

/-- `revealCell(row, col)`: one call, applying the queued update to the
current state. -/
def revealCell (rand : List (Nat × Nat)) (st : GameState) (row col : Int) :
    Except JsErr GameState :=
  (revealUpdater rand st.rows st.cols st.mines st.status st.firstClick st.grid row col).map
    fun r => { st with
      grid := r.1,
      status := if r.2.1 then GameStatus.lost else st.status,
      firstClick := if r.2.2 then false else st.firstClick }

/-- The win-check `useEffect`: while playing, on a non-empty grid in which
every cell is a mine or revealed, set status to `won`. -/
def checkWin (st : GameState) : GameState :=
  if st.status = GameStatus.playing ∧ 0 < st.grid.length ∧
      st.grid.all (fun row => row.all fun c => c.isMine || c.isRevealed) then
    { st with status := GameStatus.won }
  else st

/-- A reveal followed by the win-check effect (the effect runs after the
state update commits). -/
def revealStep (rand : List (Nat × Nat)) (st : GameState) (row col : Int) :
    Except JsErr GameState :=
  (revealCell rand st row col).map checkWin

/-- The `flagCount` computed by `revealAdjacent`. -/
def chordFlagCount (rows cols : Nat) (g : Grid) (row col : Int) : Nat :=
  (offsets.filter fun d => flaggedAtB rows cols g (row + d.1) (col + d.2)).length

/-- The in-bounds neighbors that are neither revealed nor flagged in the
render-time grid snapshot — the cells `revealAdjacent` calls `revealCell` on,
in loop order. -/
def chordCandidates (rows cols : Nat) (g : Grid) (row col : Int) : List (Int × Int) :=
  offsets.filterMap fun d =>
    let qr := row + d.1
    let qc := col + d.2
    if inB rows cols qr qc then
      let c := (g.getD qr.toNat []).getD qc.toNat mkCell
      if ¬c.isRevealed ∧ ¬c.isFlagged then some (qr, qc) else none
    else none

/-- `revealAdjacent(row, col)` (chord reveal).  The queued `revealCell`
updates all run with the render-time `gameStatus` / `firstClick` values
(stale closures), composing on the evolving grid; `setGameStatus("lost")` /
`setFirstClick(false)` calls are collected and applied at the end. -/
def revealAdjacent (rand : List (Nat × Nat)) (st : GameState) (row col : Int) :
    Except JsErr GameState :=
  if st.status ≠ GameStatus.playing then Except.ok st
  else
    match cellAt st.grid row col with
    | none => Except.error JsErr.undefinedAccess
    | some cell =>
      if ¬cell.isRevealed ∨ cell.neighborMines = 0 then Except.ok st
      else if chordFlagCount st.rows st.cols st.grid row col = cell.neighborMines then
        ((chordCandidates st.rows st.cols st.grid row col).foldl
          (fun acc q => acc.bind fun r =>
            (revealUpdater rand st.rows st.cols st.mines st.status st.firstClick
                r.1 q.1 q.2).map
              fun r2 => (r2.1, r.2.1 || r2.2.1, r.2.2 || r2.2.2))
          (Except.ok (st.grid, false, false))).map
          fun r => { st with
            grid := r.1,
            status := if r.2.1 then GameStatus.lost else st.status,
            firstClick := if r.2.2 then false else st.firstClick }
      else Except.ok st

/-- `minesRemaining`: the mine total minus the number of flagged cells. -/
def minesRemaining (st : GameState) : Int :=
  (st.mines : Int) - ((st.grid.map fun row => row.countP fun c => c.isFlagged).sum : Nat)

/-! ### Pointwise grid lemmas -/

theorem cellAtN_eq (g : Grid) (r c : Nat) :
    cellAtN g r c = g[r]?.bind fun row => row[c]? := by
  unfold cellAtN
  cases g[r]? <;> rfl

theorem getD_row_of_getElem? (g : Grid) (r : Nat) (row : List CellState)
    (h : g[r]? = some row) : g.getD r [] = row := by
  rw [List.getD_eq_getElem?_getD, h]
  rfl

theorem getD_of_cellAtN (g : Grid) (r c : Nat) (x : CellState)
    (h : cellAtN g r c = some x) : (g.getD r []).getD c mkCell = x := by
  rw [cellAtN_eq] at h
  rcases hr : g[r]? with _ | row
  · rw [hr] at h
    exact absurd h (by simp)
  · rw [hr] at h
    simp only [Option.some_bind] at h
    rw [getD_row_of_getElem? g r row hr, List.getD_eq_getElem?_getD, h]
    rfl

theorem cellAtN_updateCellN_self (g : Grid) (r c : Nat) (f : CellState → CellState) :
    cellAtN (updateCellN g r c f) r c = (cellAtN g r c).map f := by
  rw [cellAtN_eq, cellAtN_eq]
  unfold updateCellN
  rw [List.getElem?_set_self']
  rcases hr : g[r]? with _ | row
  · simp
  · rw [getD_row_of_getElem? g r row hr]
    simp only [Option.map_eq_map, Option.map_some', Option.some_bind, Function.const_apply]
    rcases hc : row[c]? with _ | x
    · rw [List.getElem?_set_self', hc]
      simp
    · have hgdc : row.getD c mkCell = x := by rw [List.getD_eq_getElem?_getD, hc]; rfl
      rw [hgdc, List.getElem?_set_self', hc]
      simp

theorem cellAtN_updateCellN_ne (g : Grid) (r c r' c' : Nat) (f : CellState → CellState)
    (hne : r' ≠ r ∨ c' ≠ c) :
    cellAtN (updateCellN g r c f) r' c' = cellAtN g r' c' := by
  rw [cellAtN_eq, cellAtN_eq]
  unfold updateCellN
  by_cases hr0 : r' = r
  · subst hr0
    rcases hne with hne | hne
    · exact absurd rfl hne
    · rw [List.getElem?_set_self']
      rcases hrow : g[r']? with _ | row
      · simp
      · rw [getD_row_of_getElem? g r' row hrow]
        simp only [Option.map_eq_map, Option.map_some', Option.some_bind, Function.const_apply]
        rw [List.getElem?_set_ne (by omega)]
  · rw [List.getElem?_set_ne (by omega)]

theorem length_updateCellN (g : Grid) (r c : Nat) (f : CellState → CellState) :
    (updateCellN g r c f).length = g.length := by
  unfold updateCellN
  simp

/-- The grid is a `rows × cols` rectangle. -/
def gridShape (rows cols : Nat) (g : Grid) : Prop :=
  g.length = rows ∧ ∀ row ∈ g, row.length = cols

instance (rows cols : Nat) (g : Grid) : Decidable (gridShape rows cols g) := by
  unfold gridShape; infer_instance

theorem gridShape_row (rows cols : Nat) (g : Grid) (h : gridShape rows cols g)
    (r : Nat) (row : List CellState) (hrow : g[r]? = some row) : row.length = cols :=
  h.2 row (List.getElem?_mem hrow)

theorem cellAtN_isSome_of_lt (rows cols : Nat) (g : Grid) (h : gridShape rows cols g)
    (r c : Nat) (hr : r < rows) (hc : c < cols) : ∃ x, cellAtN g r c = some x := by
  rw [cellAtN_eq]
  have hrlen : r < g.length := by rw [h.1]; exact hr
  rcases hrow : g[r]? with _ | row
  · rw [List.getElem?_eq_none_iff] at hrow
    omega
  · have hlen : row.length = cols := gridShape_row rows cols g h r row hrow
    rcases hx : row[c]? with _ | x
    · rw [List.getElem?_eq_none_iff] at hx
      omega
    · exact ⟨x, by simpa using hx⟩

theorem cellAtN_eq_none_of_oob (rows cols : Nat) (g : Grid) (h : gridShape rows cols g)
    (r c : Nat) (hoob : rows ≤ r ∨ cols ≤ c) : cellAtN g r c = none := by
  rw [cellAtN_eq]
  rcases hrow : g[r]? with _ | row
  · simp
  · have hrlen : r < g.length := by
      by_contra hge
      push_neg at hge
      rw [List.getElem?_eq_none hge] at hrow
      exact absurd hrow (by simp)
    have hlen : row.length = cols := gridShape_row rows cols g h r row hrow
    have h1 := h.1
    rcases hoob with hoob | hoob
    · omega
    · simp only [Option.some_bind]
      rw [List.getElem?_eq_none (by omega)]

theorem cellAt_eq_none_of_neg (g : Grid) (row col : Int) (h : row < 0 ∨ col < 0) :
    cellAt g row col = none := by
  unfold cellAt
  rw [if_pos h]

theorem cellAt_eq_cellAtN (g : Grid) (row col : Int) (hr : 0 ≤ row) (hc : 0 ≤ col) :
    cellAt g row col = cellAtN g row.toNat col.toNat := by
  unfold cellAt
  rw [if_neg]
  omega

theorem cellAt_isSome_of_inB (rows cols : Nat) (g : Grid) (h : gridShape rows cols g)
    (row col : Int) (hin : inB rows cols row col) : ∃ x, cellAt g row col = some x := by
  obtain ⟨h1, h2, h3, h4⟩ := hin
  rw [cellAt_eq_cellAtN g row col h1 h3]
  exact cellAtN_isSome_of_lt rows cols g h _ _ (by omega) (by omega)

theorem cellAt_eq_none_of_not_inB (rows cols : Nat) (g : Grid) (h : gridShape rows cols g)
    (row col : Int) (hnin : ¬inB rows cols row col) : cellAt g row col = none := by
  unfold inB at hnin
  push_neg at hnin
  by_cases hr : 0 ≤ row
  · by_cases hc : 0 ≤ col
    · rw [cellAt_eq_cellAtN g row col hr hc]
      apply cellAtN_eq_none_of_oob rows cols g h
      have := hnin hr
      omega
    · exact cellAt_eq_none_of_neg g row col (Or.inr (by omega))
  · exact cellAt_eq_none_of_neg g row col (Or.inl (by omega))

theorem inB_of_cellAt_eq_some (rows cols : Nat) (g : Grid) (h : gridShape rows cols g)
    (row col : Int) (x : CellState) (hx : cellAt g row col = some x) :
    inB rows cols row col := by
  by_contra hnin
  rw [cellAt_eq_none_of_not_inB rows cols g h row col hnin] at hx
  exact absurd hx (by simp)

theorem cellAt_update_self (g : Grid) (row col : Int) (hr : 0 ≤ row) (hc : 0 ≤ col)
    (f : CellState → CellState) :
    cellAt (updateCellN g row.toNat col.toNat f) row col = (cellAt g row col).map f := by
  rw [cellAt_eq_cellAtN _ row col hr hc, cellAt_eq_cellAtN g row col hr hc]
  exact cellAtN_updateCellN_self g _ _ f

theorem cellAt_update_ne (g : Grid) (row col row' col' : Int) (hr : 0 ≤ row) (hc : 0 ≤ col)
    (f : CellState → CellState) (hne : (row', col') ≠ (row, col)) :
    cellAt (updateCellN g row.toNat col.toNat f) row' col' = cellAt g row' col' := by
  by_cases hr' : 0 ≤ row'
  · by_cases hc' : 0 ≤ col'
    · rw [cellAt_eq_cellAtN _ row' col' hr' hc', cellAt_eq_cellAtN g row' col' hr' hc']
      apply cellAtN_updateCellN_ne
      by_cases hrr : row' = row
      · right
        intro hcc
        exact hne (by rw [hrr]; rw [show col' = col by omega])
      · left
        omega
    · rw [cellAt_eq_none_of_neg _ row' col' (Or.inr (by omega)),
        cellAt_eq_none_of_neg g row' col' (Or.inr (by omega))]
  · rw [cellAt_eq_none_of_neg _ row' col' (Or.inl (by omega)),
      cellAt_eq_none_of_neg g row' col' (Or.inl (by omega))]

theorem mem_set_of_mem {α} (l : List α) (n : Nat) (a x : α) (hx : x ∈ l.set n a) :
    x = a ∨ x ∈ l := by
  induction l generalizing n with
  | nil => simp at hx
  | cons hd tl ih =>
    cases n with
    | zero =>
      rcases List.mem_cons.mp hx with h | h
      · exact Or.inl h
      · exact Or.inr (List.mem_cons_of_mem hd h)
    | succ m =>
      rcases List.mem_cons.mp hx with h | h
      · exact Or.inr (by rw [h]; exact List.mem_cons_self hd tl)
      · rcases ih m h with h2 | h2
        · exact Or.inl h2
        · exact Or.inr (List.mem_cons_of_mem hd h2)

theorem gridShape_updateCellN (rows cols : Nat) (g : Grid) (r c : Nat)
    (f : CellState → CellState) (h : gridShape rows cols g) :
    gridShape rows cols (updateCellN g r c f) := by
  constructor
  · rw [length_updateCellN]
    exact h.1
  · intro row hrow
    unfold updateCellN at hrow
    by_cases hlen : r < g.length
    · rcases hg : g[r]? with _ | row0
      · rw [List.getElem?_eq_none_iff] at hg
        omega
      · rcases mem_set_of_mem _ _ _ _ hrow with h2 | h2
        · rw [h2, List.length_set, getD_row_of_getElem? g r row0 hg]
          exact gridShape_row rows cols g h r row0 hg
        · exact h.2 row h2
    · rw [List.set_eq_of_length_le (by omega)] at hrow
      exact h.2 row hrow

theorem cellAtN_revealAllMines (g : Grid) (r c : Nat) :
    cellAtN (revealAllMines g) r c =
      (cellAtN g r c).map fun x => if x.isMine then { x with isRevealed := true } else x := by
  rw [cellAtN_eq, cellAtN_eq]
  unfold revealAllMines
  rw [List.getElem?_map]
  rcases hr : g[r]? with _ | row
  · simp
  · simp [List.getElem?_map]

theorem cellAt_revealAllMines (g : Grid) (row col : Int) :
    cellAt (revealAllMines g) row col =
      (cellAt g row col).map fun x => if x.isMine then { x with isRevealed := true } else x := by
  by_cases hr : 0 ≤ row
  · by_cases hc : 0 ≤ col
    · rw [cellAt_eq_cellAtN _ row col hr hc, cellAt_eq_cellAtN g row col hr hc]
      exact cellAtN_revealAllMines g _ _
    · rw [cellAt_eq_none_of_neg _ row col (Or.inr (by omega)),
        cellAt_eq_none_of_neg g row col (Or.inr (by omega))]
      rfl
  · rw [cellAt_eq_none_of_neg _ row col (Or.inl (by omega)),
      cellAt_eq_none_of_neg g row col (Or.inl (by omega))]
    rfl

theorem gridShape_revealAllMines (rows cols : Nat) (g : Grid) (h : gridShape rows cols g) :
    gridShape rows cols (revealAllMines g) := by
  constructor
  · unfold revealAllMines
    rw [List.length_map]
    exact h.1
  · intro row hrow
    unfold revealAllMines at hrow
    rcases List.mem_map.mp hrow with ⟨row0, hmem, heq⟩
    rw [← heq, List.length_map]
    exact h.2 row0 hmem

theorem set_cancel {α} (l : List α) (n : Nat) (x : α) (h : l[n]? = some x) :
    l.set n x = l := by
  induction l generalizing n with
  | nil => exact absurd h (by simp)
  | cons hd tl ih =>
    cases n with
    | zero =>
      simp only [List.getElem?_cons_zero, Option.some_inj] at h
      rw [List.set_cons_zero, h]
    | succ m =>
      simp only [List.getElem?_cons_succ] at h
      rw [List.set_cons_succ, ih m h]

theorem updateCellN_cancel (g : Grid) (r c : Nat) (f1 f2 : CellState → CellState)
    (x : CellState) (hx : cellAtN g r c = some x) (hff : f2 (f1 x) = x) :
    updateCellN (updateCellN g r c f1) r c f2 = g := by
  rw [cellAtN_eq] at hx
  rcases hr : g[r]? with _ | row
  · rw [hr] at hx
    exact absurd hx (by simp)
  · rw [hr] at hx
    simp only [Option.some_bind] at hx
    have hrow1 : (updateCellN g r c f1)[r]? = some (row.set c (f1 x)) := by
      unfold updateCellN
      rw [List.getElem?_set_self', hr, getD_row_of_getElem? g r row hr]
      simp only [Option.map_eq_map, Option.map_some', Function.const_apply]
      rw [List.getD_eq_getElem?_getD, hx]
      rfl
    show (updateCellN g r c f1).set r
        (((updateCellN g r c f1).getD r []).set c
          (f2 (((updateCellN g r c f1).getD r []).getD c mkCell))) = g
    rw [getD_row_of_getElem? _ r _ hrow1]
    rw [List.getD_eq_getElem?_getD, List.getElem?_set_self', hx]
    simp only [Option.map_eq_map, Option.map_some', Function.const_apply, Option.getD_some]
    rw [List.set_set, hff, set_cancel row c x hx]
    show (updateCellN g r c f1).set r row = g
    unfold updateCellN
    rw [List.set_set]
    exact set_cancel g r row hr

/-- `toggleFlag` on an in-bounds cell, applied twice, restores the state. -/
theorem toggleFlag_cancel (st : GameState) (row col : Int) (x : CellState)
    (hx : cellAt st.grid row col = some x) :
    (toggleFlag st row col).bind (fun st2 => toggleFlag st2 row col) = Except.ok st := by
  have hr0 : 0 ≤ row ∧ 0 ≤ col := by
    by_contra hneg
    rw [cellAt_eq_none_of_neg st.grid row col (by omega)] at hx
    exact absurd hx (by simp)
  by_cases hst : st.status ≠ GameStatus.playing
  · unfold toggleFlag
    rw [if_pos hst]
    show toggleFlag st row col = Except.ok st
    unfold toggleFlag
    rw [if_pos hst]
  · by_cases hrev : x.isRevealed
    · unfold toggleFlag
      rw [if_neg hst, hx]
      simp only [hrev, if_true]
      show toggleFlag st row col = Except.ok st
      unfold toggleFlag
      rw [if_neg hst, hx]
      simp only [hrev, if_true]
    · have hx2 : cellAt (updateCellN st.grid row.toNat col.toNat fun c =>
          { c with isFlagged := !c.isFlagged }) row col =
          some { x with isFlagged := !x.isFlagged } := by
        rw [cellAt_update_self st.grid row col hr0.1 hr0.2, hx]
        rfl
      have hgrid : updateCellN (updateCellN st.grid row.toNat col.toNat fun c =>
          { c with isFlagged := !c.isFlagged }) row.toNat col.toNat
          (fun c => { c with isFlagged := !c.isFlagged }) = st.grid := by
        apply updateCellN_cancel _ _ _ _ _ x
        · rw [cellAt_eq_cellAtN st.grid row col hr0.1 hr0.2] at hx
          exact hx
        · cases x
          simp
      simp only [toggleFlag, if_neg hst, hx, hx2, hrev, Bool.false_eq_true, if_false,
        Except.bind, hgrid]

/-- C10: for every game state and every in-bounds position, applying
`toggleFlag` twice at the same position returns the original state — the two
calls are either two flag flips on an unrevealed cell while playing, or two
no-ops. -/
theorem C10_toggleFlag_involutive (st : GameState) (row col : Int)
    (hshape : gridShape st.rows st.cols st.grid) (hin : inB st.rows st.cols row col) :
    (toggleFlag st row col).bind (fun st2 => toggleFlag st2 row col) = Except.ok st := by
  obtain ⟨x, hx⟩ := cellAt_isSome_of_inB _ _ _ hshape row col hin
  exact toggleFlag_cancel st row col x hx

def gridW10 : Grid :=
  [[⟨true, false, false, 0⟩, ⟨false, false, false, 1⟩],
   [⟨false, true, false, 1⟩, ⟨false, false, true, 1⟩]]

def stW10 : GameState := ⟨2, 2, 1, gridW10, GameStatus.playing, false⟩

/-- Witness for C10 at a concrete state and position. -/
theorem C10_toggleFlag_involutive_witness :
    gridShape stW10.rows stW10.cols stW10.grid ∧ inB stW10.rows stW10.cols 0 0 ∧
      (toggleFlag stW10 0 0).bind (fun st2 => toggleFlag st2 0 0) = Except.ok stW10 :=
  ⟨by decide, by decide, C10_toggleFlag_involutive stW10 0 0 (by decide) (by decide)⟩

/-- C5: while playing and past the first click, revealing an unrevealed,
unflagged mine cell sets the status to `lost` and leaves every mine cell of
the resulting board revealed. -/
theorem C5_reveal_mine_loses (rand : List (Nat × Nat)) (st : GameState) (row col : Int)
    (x : CellState) (hst : st.status = GameStatus.playing) (hfc : st.firstClick = false)
    (hx : cellAt st.grid row col = some x) (hmine : x.isMine = true)
    (hrev : x.isRevealed = false) (hflag : x.isFlagged = false) :
    ∃ st2, revealCell rand st row col = Except.ok st2 ∧ st2.status = GameStatus.lost ∧
      ∀ (r c : Int) (y : CellState), cellAt st2.grid r c = some y → y.isMine = true →
        y.isRevealed = true := by
  refine ⟨{ st with
      grid := revealAllMines (updateCellN st.grid row.toNat col.toNat fun x =>
        { x with isRevealed := true }),
      status := GameStatus.lost }, ?_, ?_, ?_⟩
  · unfold revealCell revealUpdater
    rw [if_neg (by simp [hst]), hfc, hx]
    simp only [Bool.false_eq_true, if_false, hrev, hflag, or_self, hmine, if_true]
    rfl
  · simp
  · intro r c y hy hymine
    simp only [GameState.grid] at hy
    rw [cellAt_revealAllMines] at hy
    rcases hz : cellAt (updateCellN st.grid row.toNat col.toNat fun x =>
        { x with isRevealed := true }) r c with _ | z
    · rw [hz] at hy
      exact absurd hy (by simp)
    · rw [hz] at hy
      simp only [Option.map_some', Option.some_inj] at hy
      by_cases hzm : z.isMine
      · rw [if_pos hzm] at hy
        rw [← hy]
      · rw [if_neg hzm] at hy
        rw [← hy] at hymine
        exact absurd hymine hzm

theorem grid_all_iff (g : Grid) (p : CellState → Bool) :
    (g.all fun row => row.all p) = true ↔
      ∀ (r c : Int) (y : CellState), cellAt g r c = some y → p y = true := by
  constructor
  · intro h r c y hy
    have hr0 : 0 ≤ r ∧ 0 ≤ c := by
      by_contra hneg
      rw [cellAt_eq_none_of_neg g r c (by omega)] at hy
      exact absurd hy (by simp)
    rw [cellAt_eq_cellAtN g r c hr0.1 hr0.2, cellAtN_eq] at hy
    rcases hrow : g[r.toNat]? with _ | row
    · rw [hrow] at hy
      exact absurd hy (by simp)
    · rw [hrow] at hy
      simp only [Option.some_bind] at hy
      have h1 := (List.all_eq_true.mp h) row (List.getElem?_mem hrow)
      exact (List.all_eq_true.mp h1) y (List.getElem?_mem hy)
  · intro h
    rw [List.all_eq_true]
    intro row hrow
    rw [List.all_eq_true]
    intro y hy
    obtain ⟨r, hr⟩ := List.mem_iff_getElem?.mp hrow
    obtain ⟨c, hc⟩ := List.mem_iff_getElem?.mp hy
    apply h (r : Int) (c : Int) y
    rw [cellAt_eq_cellAtN g _ _ (by positivity) (by positivity), cellAtN_eq]
    simp only [Int.toNat_natCast, hr, Option.some_bind, hc]

/-- C4: after a successful reveal that leaves the game playing, the win-check
effect sets the status to `won` exactly when every non-mine cell of the
resulting board is revealed; mine cells (their flags or reveal state) are
irrelevant. -/
theorem C4_win_iff_all_safe_revealed (rand : List (Nat × Nat)) (st st1 : GameState)
    (row col : Int) (hst : st.status = GameStatus.playing)
    (hrc : revealCell rand st row col = Except.ok st1)
    (hst1 : st1.status = GameStatus.playing) (hne : st1.grid ≠ []) :
    (checkWin st1).status = GameStatus.won ↔
      ∀ (r c : Int) (y : CellState), cellAt st1.grid r c = some y → y.isMine = false →
        y.isRevealed = true := by
  have hlen : 0 < st1.grid.length := by
    cases hgl : st1.grid with
    | nil => exact absurd hgl hne
    | cons a l => simp
  have hiff : ∀ y : CellState, (y.isMine || y.isRevealed) = true ↔
      (y.isMine = false → y.isRevealed = true) := by
    intro y
    cases hym : y.isMine <;> simp
  unfold checkWin
  by_cases hcond : st1.status = GameStatus.playing ∧ 0 < st1.grid.length ∧
      st1.grid.all (fun row => row.all fun c => c.isMine || c.isRevealed)
  · rw [if_pos hcond]
    simp only [GameState.status]
    constructor
    · intro _ r c y hy hym
      have := (grid_all_iff st1.grid _).mp hcond.2.2 r c y hy
      rw [hym] at this
      simpa using this
    · intro _
      trivial
  · rw [if_neg hcond]
    constructor
    · intro hw
      rw [hst1] at hw
      exact absurd hw (by simp)
    · intro hall
      exfalso
      apply hcond
      refine ⟨hst1, hlen, ?_⟩
      rw [grid_all_iff]
      intro r c y hy
      rw [hiff y]
      exact hall r c y hy

def stW5 : GameState :=
  ⟨2, 2, 1,
   [[⟨true, false, false, 0⟩, ⟨false, false, false, 1⟩],
    [⟨false, false, false, 1⟩, ⟨false, false, false, 1⟩]],
   GameStatus.playing, false⟩

/-- Witness for C5 at a concrete state: revealing the mine at `(0,0)`. -/
theorem C5_reveal_mine_loses_witness :
    stW5.status = GameStatus.playing ∧ stW5.firstClick = false ∧
      cellAt stW5.grid 0 0 = some ⟨true, false, false, 0⟩ ∧
      (∃ st2, revealCell [] stW5 0 0 = Except.ok st2 ∧ st2.status = GameStatus.lost ∧
        ∀ (r c : Int) (y : CellState), cellAt st2.grid r c = some y → y.isMine = true →
          y.isRevealed = true) :=
  ⟨rfl, rfl, by decide,
    C5_reveal_mine_loses [] stW5 0 0 ⟨true, false, false, 0⟩ rfl rfl (by decide) rfl rfl rfl⟩

def stW4 : GameState :=
  ⟨2, 2, 1,
   [[⟨true, false, false, 0⟩, ⟨false, true, false, 1⟩],
    [⟨false, true, false, 1⟩, ⟨false, false, false, 1⟩]],
   GameStatus.playing, false⟩

def stW4r : GameState :=
  ⟨2, 2, 1,
   [[⟨true, false, false, 0⟩, ⟨false, true, false, 1⟩],
    [⟨false, true, false, 1⟩, ⟨false, true, false, 1⟩]],
   GameStatus.playing, false⟩

/-- Witness for C4: a concrete reveal of the last safe cell, after which the
win check fires exactly when all non-mine cells are revealed. -/
theorem C4_win_iff_all_safe_revealed_witness :
    stW4.status = GameStatus.playing ∧ revealCell [] stW4 1 1 = Except.ok stW4r ∧
      stW4r.status = GameStatus.playing ∧ stW4r.grid ≠ [] ∧
      ((checkWin stW4r).status = GameStatus.won ↔
        ∀ (r c : Int) (y : CellState), cellAt stW4r.grid r c = some y → y.isMine = false →
          y.isRevealed = true) :=
  ⟨rfl, rfl, rfl, by decide,
    C4_win_iff_all_safe_revealed [] stW4 stW4r 1 1 rfl rfl rfl (by decide)⟩

/-- C2 (bug evidence): `initializeGrid` performs no `InvalidConfiguration`
validation.  With `mineCount = rows*cols = 1` and no avoided cell it happily
returns a board consisting entirely of mines, and with an avoided cell the
placement loop never finishes no matter how much randomness it is fed
(the model returns `none` for every finite random stream). -/
theorem C2_initializeGrid_never_fails_with_invalid_configuration :
    initializeGrid 1 1 1 none [(0, 0)] =
      some [[⟨true, false, false, 0⟩]] ∧
    ∀ rand : List (Nat × Nat), initializeGrid 1 1 1 (some (0, 0)) rand = none := by
  constructor
  · decide
  · intro rand
    unfold initializeGrid
    suffices h : placeMines 1 1 1 (some (0, 0)) rand [] = none by
      rw [h]
      rfl
    induction rand with
    | nil => rfl
    | cons d rest ih =>
      unfold placeMines
      simp only [List.length_nil, Nat.zero_lt_one, if_true, drawPos, Nat.mod_one]
      simpa using ih

def stW9 : GameState := ⟨2, 2, 1, [[mkCell, mkCell], [mkCell, mkCell]], GameStatus.playing, true⟩

def stW9r : GameState :=
  ⟨2, 2, 1,
   [[⟨true, false, false, 0⟩, ⟨false, false, false, 1⟩],
    [⟨false, false, false, 1⟩, ⟨false, false, false, 1⟩]],
   GameStatus.playing, false⟩

/-- C9 (bug evidence): on a fresh game, a reveal at the out-of-bounds
coordinate `(2, 0)` of a `2 × 2` board does not fail at all — the first-click
branch regenerates the board (the avoided cell simply never matches) and
returns success with a changed grid. -/
theorem C9_oob_first_reveal_regenerates :
    ¬inB stW9.rows stW9.cols 2 0 ∧
      revealCell [(0, 0)] stW9 2 0 = Except.ok stW9r ∧
      stW9r.grid ≠ stW9.grid ∧ stW9r.firstClick = false := by
  refine ⟨by decide, rfl, by decide, rfl⟩

def stW8c : GameState :=
  ⟨2, 2, 1, [[⟨false, false, true, 0⟩, mkCell], [mkCell, mkCell]], GameStatus.playing, true⟩

def stW8r : GameState :=
  ⟨2, 2, 1,
   [[⟨false, false, false, 1⟩, ⟨true, false, false, 0⟩],
    [⟨false, false, false, 1⟩, ⟨false, false, false, 1⟩]],
   GameStatus.playing, false⟩

/-- C8 (counterexample): on a fresh game (`firstClick = true`) the first-click
branch runs before the revealed/flagged check, so revealing a flagged cell is
not a no-op: the board is regenerated and the flag is lost. -/
theorem C8_reveal_flagged_fresh_counterexample :
    cellAt stW8c.grid 0 0 = some ⟨false, false, true, 0⟩ ∧
      revealCell [(0, 0), (0, 1)] stW8c 0 0 = Except.ok stW8r ∧
      stW8r ≠ stW8c ∧ cellAt stW8r.grid 0 0 = some ⟨false, false, false, 1⟩ := by
  refine ⟨by decide, rfl, by decide, by decide⟩

/-- C8 (amended): `revealCell` returns the state unchanged whenever the game
is not playing, and — once the first click has happened — whenever the target
cell is already revealed or flagged.  (On a fresh game the first-click branch
regenerates the board instead, even for a flagged target.) -/
theorem C8_reveal_noop (rand : List (Nat × Nat)) (st : GameState) (row col : Int) :
    (st.status ≠ GameStatus.playing → revealCell rand st row col = Except.ok st) ∧
    (st.status = GameStatus.playing → st.firstClick = false →
      ∀ y, cellAt st.grid row col = some y → (y.isRevealed = true ∨ y.isFlagged = true) →
        revealCell rand st row col = Except.ok st) := by
  constructor
  · intro hst
    unfold revealCell revealUpdater
    rw [if_pos hst]
    rfl
  · intro hst hfc y hy hyrf
    rcases st with ⟨R, C, M, G, S, F⟩
    simp only at hst hfc hy
    subst hst
    subst hfc
    unfold revealCell revealUpdater
    rw [if_neg (by simp), hy]
    have hcond : (y.isRevealed ∨ y.isFlagged) := by
      rcases hyrf with h | h
      · exact Or.inl (by simp [h])
      · exact Or.inr (by simp [h])
    simp only [Bool.false_eq_true, if_false, if_pos hcond]
    rfl

def stW8w : GameState :=
  ⟨2, 2, 1, [[⟨false, false, true, 1⟩, ⟨true, false, false, 0⟩],
             [⟨false, false, false, 1⟩, ⟨false, false, false, 1⟩]],
   GameStatus.playing, false⟩

/-- Witness for the amended C8: past the first click, revealing a flagged
cell is a no-op that leaves the flag in place. -/
theorem C8_reveal_noop_witness :
    stW8w.status = GameStatus.playing ∧ stW8w.firstClick = false ∧
      cellAt stW8w.grid 0 0 = some ⟨false, false, true, 1⟩ ∧
      revealCell [] stW8w 0 0 = Except.ok stW8w :=
  ⟨rfl, rfl, by decide,
    (C8_reveal_noop [] stW8w 0 0).2 rfl rfl ⟨false, false, true, 1⟩ (by decide) (Or.inr rfl)⟩

/-! ### Properties of mine placement and board generation (C3) -/

theorem placeMines_spec (rows cols mines : Nat) (avoid : Option (Int × Int))
    (hrows : 0 < rows) (hcols : 0 < cols) :
    ∀ (rand : List (Nat × Nat)) (acc ps : List (Nat × Nat)),
      acc.Nodup → (∀ p ∈ acc, p.1 < rows ∧ p.2 < cols) →
      (∀ p ∈ acc, ∀ a, avoid = some a → ¬((p.1 : Int) = a.1 ∧ (p.2 : Int) = a.2)) →
      acc.length ≤ mines →
      placeMines rows cols mines avoid rand acc = some ps →
      ps.Nodup ∧ (∀ p ∈ ps, p.1 < rows ∧ p.2 < cols) ∧
      (∀ p ∈ ps, ∀ a, avoid = some a → ¬((p.1 : Int) = a.1 ∧ (p.2 : Int) = a.2)) ∧
      ps.length = mines := by
  intro rand
  induction rand with
  | nil =>
    intro acc ps h1 h2 h3 h4 h5
    unfold placeMines at h5
    split at h5
    · exact absurd h5 (by simp)
    · simp only [Option.some_inj] at h5
      subst h5
      rename_i hlt
      exact ⟨h1, h2, h3, by omega⟩
  | cons d rest ih =>
    intro acc ps h1 h2 h3 h4 h5
    unfold placeMines at h5
    split at h5
    · rename_i hlt
      have hpb : (drawPos rows cols d).1 < rows ∧ (drawPos rows cols d).2 < cols :=
        ⟨Nat.mod_lt _ hrows, Nat.mod_lt _ hcols⟩
      split at h5
      · rename_i a heq
        simp only at h5
        split at h5
        · exact ih acc ps h1 h2 h3 h4 h5
        · rename_i hskip
          split at h5
          · exact ih acc ps h1 h2 h3 h4 h5
          · rename_i hmem
            apply ih (acc ++ [drawPos rows cols d]) ps
            · simp [List.nodup_append, h1, hmem]
            · intro q hq
              rcases List.mem_append.mp hq with h | h
              · exact h2 q h
              · rw [List.mem_singleton.mp h]
                exact hpb
            · intro q hq b hb
              simp only [Option.some_inj] at hb
              subst hb
              rcases List.mem_append.mp hq with h | h
              · exact h3 q h _ rfl
              · rw [List.mem_singleton.mp h]
                rintro ⟨e1, e2⟩
                simp [e1, e2] at hskip
            · rw [List.length_append]
              simpa using hlt
            · exact h5
      · simp only at h5
        split at h5
        · rename_i hfalse
          exact absurd hfalse (by simp)
        · split at h5
          · exact ih acc ps h1 h2 h3 h4 h5
          · rename_i hmem
            apply ih (acc ++ [drawPos rows cols d]) ps
            · simp [List.nodup_append, h1, hmem]
            · intro q hq
              rcases List.mem_append.mp hq with h | h
              · exact h2 q h
              · rw [List.mem_singleton.mp h]
                exact hpb
            · intro q hq b hb
              exact absurd hb (by simp)
            · rw [List.length_append]
              simpa using hlt
            · exact h5
    · simp only [Option.some_inj] at h5
      subst h5
      rename_i hlt
      exact ⟨h1, h2, h3, by omega⟩

theorem cellAtN_blankGrid (rows cols r c : Nat) :
    cellAtN (blankGrid rows cols) r c =
      if r < rows ∧ c < cols then some mkCell else none := by
  rw [cellAtN_eq]
  unfold blankGrid
  rw [List.getElem?_replicate]
  by_cases hr : r < rows
  · rw [if_pos hr]
    simp only [Option.some_bind]
    rw [List.getElem?_replicate]
    by_cases hc : c < cols
    · rw [if_pos hc, if_pos ⟨hr, hc⟩]
    · rw [if_neg hc, if_neg (by tauto)]
  · rw [if_neg hr, if_neg (by tauto)]
    rfl

theorem gridShape_blankGrid (rows cols : Nat) : gridShape rows cols (blankGrid rows cols) := by
  constructor
  · unfold blankGrid
    exact List.length_replicate _ _
  · intro row hrow
    unfold blankGrid at hrow
    rw [List.eq_of_mem_replicate hrow]
    exact List.length_replicate _ _

theorem cellAtN_setMines (ps : List (Nat × Nat)) : ∀ (g : Grid) (r c : Nat),
    cellAtN (setMines g ps) r c =
      (cellAtN g r c).map fun x => if (r, c) ∈ ps then { x with isMine := true } else x := by
  induction ps with
  | nil =>
    intro g r c
    unfold setMines
    simp only [List.foldl_nil, List.not_mem_nil, if_false]
    rcases cellAtN g r c with _ | x <;> rfl
  | cons p tl ih =>
    intro g r c
    have hstep : setMines g (p :: tl) =
        setMines (updateCellN g p.1 p.2 fun x => { x with isMine := true }) tl := by
      unfold setMines
      rw [List.foldl_cons]
    rw [hstep, ih]
    by_cases hrc : r = p.1 ∧ c = p.2
    · rw [hrc.1, hrc.2, cellAtN_updateCellN_self]
      rcases hx : cellAtN g p.1 p.2 with _ | x
      · rfl
      · simp only [Option.map_some']
        have hmem : ((p.1, p.2) : Nat × Nat) ∈ p :: tl := List.mem_cons_self p tl
        rw [if_pos hmem]
        by_cases htl : ((p.1, p.2) : Nat × Nat) ∈ tl
        · rw [if_pos htl]
        · rw [if_neg htl]
    · have hne : r ≠ p.1 ∨ c ≠ p.2 := by tauto
      rw [cellAtN_updateCellN_ne g p.1 p.2 r c _ hne]
      have hmem : ((r, c) ∈ p :: tl) ↔ ((r, c) ∈ tl) := by
        constructor
        · intro h
          rcases List.mem_cons.mp h with h | h
          · exfalso
            have : r = p.1 ∧ c = p.2 := by
              have := Prod.mk.injEq r c p.1 p.2 ▸ h
              exact ⟨congrArg Prod.fst h, congrArg Prod.snd h⟩
            exact hrc this
          · exact h
        · intro h
          exact List.mem_cons_of_mem p h
      rcases hx : cellAtN g r c with _ | x
      · rfl
      · simp only [Option.map_some']
        by_cases htl : ((r, c) : Nat × Nat) ∈ tl
        · rw [if_pos htl, if_pos (hmem.mpr htl)]
        · rw [if_neg htl, if_neg (fun hc2 => htl (hmem.mp hc2))]

theorem gridShape_setMines (rows cols : Nat) (ps : List (Nat × Nat)) :
    ∀ g : Grid, gridShape rows cols g → gridShape rows cols (setMines g ps) := by
  induction ps with
  | nil => intro g hg; exact hg
  | cons p tl ih =>
    intro g hg
    have hstep : setMines g (p :: tl) =
        setMines (updateCellN g p.1 p.2 fun x => { x with isMine := true }) tl := by
      unfold setMines
      rw [List.foldl_cons]
    rw [hstep]
    exact ih _ (gridShape_updateCellN rows cols g p.1 p.2 _ hg)

theorem cellAtN_computeCounts (rows cols : Nat) (g : Grid) (r c : Nat) :
    cellAtN (computeCounts rows cols g) r c =
      if r < rows ∧ c < cols then
        some (if ((g.getD r []).getD c mkCell).isMine then (g.getD r []).getD c mkCell
          else { (g.getD r []).getD c mkCell with
            neighborMines := codeNeighborMines rows cols g r c })
      else none := by
  rw [cellAtN_eq]
  unfold computeCounts
  rw [List.getElem?_map]
  by_cases hr : r < rows
  · rw [List.getElem?_range hr]
    simp only [Option.map_some', Option.some_bind]
    rw [List.getElem?_map]
    by_cases hc : c < cols
    · rw [List.getElem?_range hc]
      rw [if_pos ⟨hr, hc⟩]
      rfl
    · rw [if_neg (by tauto)]
      rw [List.getElem?_eq_none (by simpa using hc)]
      rfl
  · rw [if_neg (by tauto)]
    rw [List.getElem?_eq_none (by simpa using hr)]
    rfl

theorem gridShape_computeCounts (rows cols : Nat) (g : Grid) :
    gridShape rows cols (computeCounts rows cols g) := by
  constructor
  · unfold computeCounts
    rw [List.length_map, List.length_range]
  · intro row hrow
    unfold computeCounts at hrow
    rcases List.mem_map.mp hrow with ⟨r, hr, heq⟩
    rw [← heq, List.length_map, List.length_range]

theorem initializeGrid_shape (rows cols mines : Nat) (avoid : Option (Int × Int))
    (rand : List (Nat × Nat)) (g : Grid)
    (hinit : initializeGrid rows cols mines avoid rand = some g) :
    gridShape rows cols g := by
  unfold initializeGrid at hinit
  rcases hps : placeMines rows cols mines avoid rand [] with _ | ps
  · rw [hps] at hinit
    exact absurd hinit (by simp)
  · rw [hps] at hinit
    simp only [Option.map_some', Option.some_inj] at hinit
    rw [← hinit]
    exact gridShape_computeCounts rows cols _

theorem initializeGrid_cells (rows cols mines : Nat) (avoid : Option (Int × Int))
    (rand : List (Nat × Nat)) (g : Grid) (ps : List (Nat × Nat))
    (hps : placeMines rows cols mines avoid rand [] = some ps)
    (hinit : initializeGrid rows cols mines avoid rand = some g) :
    ∀ r c : Nat, r < rows → c < cols →
      cellAtN g r c = some (if (r, c) ∈ ps
        then ⟨true, false, false, 0⟩
        else ⟨false, false, false,
          codeNeighborMines rows cols (setMines (blankGrid rows cols) ps) r c⟩) := by
  intro r c hr hc
  unfold initializeGrid at hinit
  rw [hps] at hinit
  simp only [Option.map_some', Option.some_inj] at hinit
  rw [← hinit]
  have hpre : cellAtN (setMines (blankGrid rows cols) ps) r c =
      some (if (r, c) ∈ ps then { mkCell with isMine := true } else mkCell) := by
    rw [cellAtN_setMines, cellAtN_blankGrid, if_pos ⟨hr, hc⟩]
    rfl
  have hgd := getD_of_cellAtN _ r c _ hpre
  rw [cellAtN_computeCounts, if_pos ⟨hr, hc⟩, hgd]
  by_cases hmem : (r, c) ∈ ps
  · rw [if_pos hmem, if_pos hmem]
    rfl
  · rw [if_neg hmem, if_neg hmem]
    rfl

/-- The 8 genuine neighbor offsets — the claim counts "the up-to-8 in-grid
neighbors" of a cell, without the cell itself. -/
def offsets8 : List (Int × Int) :=
  [(-1, -1), (-1, 0), (-1, 1), (0, -1), (0, 1), (1, -1), (1, 0), (1, 1)]

/-- The brute-force recomputation demanded by the spec: the number of in-grid
mine cells among the 8 neighbors of `(row, col)`. -/
def specNeighborMines (rows cols : Nat) (g : Grid) (row col : Int) : Nat :=
  (offsets8.filter fun d => mineAtB rows cols g (row + d.1) (col + d.2)).length

/-- On a non-mine center cell, the source's 9-offset count coincides with the
8-neighbor recomputation (the `(0,0)` offset contributes nothing). -/
theorem codeNeighborMines_eq_spec (rows cols : Nat) (g : Grid) (r c : Nat)
    (hcenter : mineAtB rows cols g (r : Int) (c : Int) = false) :
    codeNeighborMines rows cols g r c = specNeighborMines rows cols g (r : Int) (c : Int) := by
  unfold codeNeighborMines specNeighborMines
  have hsplit : (offsets.filter fun d =>
      mineAtB rows cols g ((r : Int) + d.1) ((c : Int) + d.2)) =
      ([((-1 : Int), (-1 : Int)), (-1, 0), (-1, 1), (0, -1)].filter fun d =>
        mineAtB rows cols g ((r : Int) + d.1) ((c : Int) + d.2)) ++
      (((0, 0) : Int × Int) :: [((0 : Int), (1 : Int)), (1, -1), (1, 0), (1, 1)]).filter
        (fun d => mineAtB rows cols g ((r : Int) + d.1) ((c : Int) + d.2)) := by
    rw [← List.filter_append]
    rfl
  have hmid : (((0, 0) : Int × Int) :: [((0 : Int), (1 : Int)), (1, -1), (1, 0), (1, 1)]).filter
      (fun d => mineAtB rows cols g ((r : Int) + d.1) ((c : Int) + d.2)) =
      ([((0 : Int), (1 : Int)), (1, -1), (1, 0), (1, 1)].filter fun d =>
        mineAtB rows cols g ((r : Int) + d.1) ((c : Int) + d.2)) := by
    rw [List.filter_cons]
    rw [if_neg (by simp [hcenter])]
  have hsplit8 : (offsets8.filter fun d =>
      mineAtB rows cols g ((r : Int) + d.1) ((c : Int) + d.2)) =
      ([((-1 : Int), (-1 : Int)), (-1, 0), (-1, 1), (0, -1)].filter fun d =>
        mineAtB rows cols g ((r : Int) + d.1) ((c : Int) + d.2)) ++
      ([((0 : Int), (1 : Int)), (1, -1), (1, 0), (1, 1)].filter fun d =>
        mineAtB rows cols g ((r : Int) + d.1) ((c : Int) + d.2)) := by
    rw [← List.filter_append]
    rfl
  rw [hsplit, hmid, hsplit8]

/-- Total number of mine cells on the board. -/
def countMines (g : Grid) : Nat :=
  (g.map fun row => row.countP fun c => c.isMine).sum

theorem countP_or_disjoint {α} (a b : α → Bool) (l : List α)
    (h : ∀ x ∈ l, ¬(a x = true ∧ b x = true)) :
    l.countP (fun x => a x || b x) = l.countP a + l.countP b := by
  induction l with
  | nil => simp
  | cons x tl ih =>
    simp only [List.countP_cons]
    rw [ih (fun y hy => h y (List.mem_cons_of_mem x hy))]
    have hx := h x (List.mem_cons_self x tl)
    cases ha : a x <;> cases hb : b x <;> simp [ha, hb] at hx ⊢ <;> omega

theorem countP_range_eq_single (n k : Nat) :
    (List.range n).countP (fun c => decide (c = k)) = if k < n then 1 else 0 := by
  induction n with
  | zero => simp
  | succ m ih =>
    rw [List.range_succ, List.countP_append, ih]
    simp only [List.countP_cons, List.countP_nil]
    by_cases h2 : m = k
    · subst h2
      simp [Nat.lt_irrefl, Nat.lt_succ_self]
    · by_cases h1 : k < m
      · simp only [if_pos h1, if_pos (by omega : k < m + 1)]
        simp [h2]
      · simp only [if_neg h1, if_neg (by omega : ¬k < m + 1)]
        simp [h2]

theorem countP_pair_row (cols : Nat) (r : Nat) (p : Nat × Nat) (hp2 : p.2 < cols) :
    (List.range cols).countP (fun c => decide ((r, c) = p)) = if r = p.1 then 1 else 0 := by
  by_cases hr : r = p.1
  · rw [if_pos hr]
    have hcongr : (List.range cols).countP (fun c => decide ((r, c) = p)) =
        (List.range cols).countP (fun c => decide (c = p.2)) := by
      apply List.countP_congr
      intro c hc
      simp only [decide_eq_true_eq]
      constructor
      · intro he
        rw [← he]
      · intro he
        rw [Prod.ext_iff]
        exact ⟨hr, he⟩
    rw [hcongr, countP_range_eq_single, if_pos hp2]
  · rw [if_neg hr]
    have hcongr : (List.range cols).countP (fun c => decide ((r, c) = p)) =
        (List.range cols).countP (fun _ => false) := by
      apply List.countP_congr
      intro c hc
      simp only [decide_eq_true_eq, Bool.false_eq_true, iff_false]
      intro he
      exact hr (congrArg Prod.fst he)
    rw [hcongr]
    simp

theorem sum_map_add_distrib {α} (f g : α → Nat) (l : List α) :
    (l.map fun x => f x + g x).sum = (l.map f).sum + (l.map g).sum := by
  induction l with
  | nil => simp
  | cons x tl ih =>
    simp only [List.map_cons, List.sum_cons, ih]
    omega

theorem mines_count_core (rows cols : Nat) : ∀ ps : List (Nat × Nat), ps.Nodup →
    (∀ p ∈ ps, p.1 < rows ∧ p.2 < cols) →
    ((List.range rows).map fun r =>
      (List.range cols).countP fun c => decide ((r, c) ∈ ps)).sum = ps.length := by
  intro ps
  induction ps with
  | nil => simp
  | cons p tl ih =>
    intro hnd hbd
    have hsplit : ∀ r : Nat, (List.range cols).countP (fun c => decide ((r, c) ∈ p :: tl)) =
        (List.range cols).countP (fun c => decide ((r, c) = p)) +
        (List.range cols).countP (fun c => decide ((r, c) ∈ tl)) := by
      intro r
      rw [← countP_or_disjoint]
      · apply List.countP_congr
        intro c hc
        simp [List.mem_cons]
      · intro c hc hcontra
        obtain ⟨h1, h2⟩ := hcontra
        simp only [decide_eq_true_eq] at h1 h2
        rw [h1] at h2
        exact (List.nodup_cons.mp hnd).1 h2
    rw [List.map_congr_left (fun r _ => hsplit r), sum_map_add_distrib]
    have hA : ((List.range rows).map fun r =>
        (List.range cols).countP fun c => decide ((r, c) = p)).sum = 1 := by
      rw [List.map_congr_left (fun r _ => countP_pair_row cols r p (hbd p (by simp)).2)]
      have : ((List.range rows).map fun r => if r = p.1 then 1 else 0).sum =
          (List.range rows).countP fun r => decide (r = p.1) := by
        induction (List.range rows) with
        | nil => simp
        | cons x l ihx =>
          simp only [List.map_cons, List.sum_cons, List.countP_cons, ihx]
          by_cases hx : x = p.1 <;> simp [hx] <;> omega
      rw [this, countP_range_eq_single, if_pos (hbd p (by simp)).1]
    have hB := ih (List.nodup_cons.mp hnd).2
      (fun q hq => hbd q (List.mem_cons_of_mem p hq))
    rw [hA, hB, List.length_cons]
    omega

theorem countP_eq_range {α} (d : α) (p : α → Bool) : ∀ l : List α,
    l.countP p = (List.range l.length).countP fun i => p (l.getD i d) := by
  intro l
  induction l with
  | nil => simp
  | cons x tl ih =>
    rw [List.countP_cons, List.length_cons, List.range_succ_eq_map, List.countP_cons,
      List.countP_map]
    have : (List.range tl.length).countP ((fun i => p ((x :: tl).getD i d)) ∘ Nat.succ) =
        (List.range tl.length).countP fun i => p (tl.getD i d) := by
      apply List.countP_congr
      intro i hi
      rfl
    rw [this, ← ih]
    rfl

theorem map_sum_over_rows (f : List CellState → Nat) : ∀ g : Grid,
    (g.map f).sum = ((List.range g.length).map fun r => f (g.getD r [])).sum := by
  intro g
  induction g with
  | nil => simp
  | cons row tl ih =>
    rw [List.map_cons, List.sum_cons, List.length_cons, List.range_succ_eq_map,
      List.map_cons, List.sum_cons, List.map_map]
    have : ((List.range tl.length).map ((fun r => f ((row :: tl).getD r [])) ∘ Nat.succ)) =
        (List.range tl.length).map fun r => f (tl.getD r []) := by
      apply List.map_congr_left
      intro i hi
      rfl
    rw [this, ← ih]
    rfl

theorem mineAtB_pre_final (rows cols : Nat) (g : Grid) (ps : List (Nat × Nat))
    (hcells : ∀ r c : Nat, r < rows → c < cols →
      cellAtN g r c = some (if (r, c) ∈ ps
        then ⟨true, false, false, 0⟩
        else ⟨false, false, false,
          codeNeighborMines rows cols (setMines (blankGrid rows cols) ps) r c⟩)) :
    ∀ row col : Int, mineAtB rows cols (setMines (blankGrid rows cols) ps) row col =
      mineAtB rows cols g row col := by
  intro row col
  unfold mineAtB
  by_cases hin : inB rows cols row col
  · have hrn : row.toNat < rows := by
      obtain ⟨h1, h2, h3, h4⟩ := hin
      omega
    have hcn : col.toNat < cols := by
      obtain ⟨h1, h2, h3, h4⟩ := hin
      omega
    have hpre : cellAtN (setMines (blankGrid rows cols) ps) row.toNat col.toNat =
        some (if (row.toNat, col.toNat) ∈ ps then { mkCell with isMine := true } else mkCell) := by
      rw [cellAtN_setMines, cellAtN_blankGrid, if_pos ⟨hrn, hcn⟩]
      rfl
    rw [getD_of_cellAtN _ _ _ _ hpre,
      getD_of_cellAtN _ _ _ _ (hcells row.toNat col.toNat hrn hcn)]
    by_cases hmem : (row.toNat, col.toNat) ∈ ps
    · rw [if_pos hmem, if_pos hmem]
    · rw [if_neg hmem, if_neg hmem]
      rfl
  · simp [hin]

/-- C3: every successfully generated board has exactly `mines` mine cells,
never puts a mine on the avoided cell, and gives every non-mine cell a
`neighborMines` equal to the brute-force recount of in-grid mine neighbors. -/
theorem C3_initializeGrid_spec (rows cols mines : Nat) (avoid : Option (Int × Int))
    (rand : List (Nat × Nat)) (g : Grid) (hrows : 0 < rows) (hcols : 0 < cols)
    (hinit : initializeGrid rows cols mines avoid rand = some g) :
    countMines g = mines ∧
    (∀ a : Int × Int, avoid = some a → ∀ y, cellAt g a.1 a.2 = some y → y.isMine = false) ∧
    (∀ (r c : Int) (y : CellState), cellAt g r c = some y → y.isMine = false →
      y.neighborMines = specNeighborMines rows cols g r c) := by
  have hps0 : ∃ ps, placeMines rows cols mines avoid rand [] = some ps := by
    unfold initializeGrid at hinit
    rcases hps : placeMines rows cols mines avoid rand [] with _ | ps
    · rw [hps] at hinit
      exact absurd hinit (by simp)
    · exact ⟨ps, rfl⟩

  obtain ⟨ps, hps⟩ := hps0
  obtain ⟨hnd, hbd, havd, hlen⟩ := placeMines_spec rows cols mines avoid hrows hcols
    rand [] ps (by simp) (by simp) (by simp) (by simp) hps
  have hsh := initializeGrid_shape rows cols mines avoid rand g hinit
  have hcells := initializeGrid_cells rows cols mines avoid rand g ps hps hinit
  refine ⟨?_, ?_, ?_⟩
  · unfold countMines
    rw [map_sum_over_rows, hsh.1]
    have hrowwise : ∀ r, r < rows →
        (g.getD r []).countP (fun c => c.isMine) =
        (List.range cols).countP fun c => decide ((r, c) ∈ ps) := by
      intro r hr
      have hrowlen : (g.getD r []).length = cols := by
        rcases hrow : g[r]? with _ | row
        · exfalso
          rw [List.getElem?_eq_none_iff] at hrow
          have := hsh.1
          omega
        · rw [getD_row_of_getElem? g r row hrow]
          exact gridShape_row rows cols g hsh r row hrow
      rw [countP_eq_range mkCell, hrowlen]
      apply List.countP_congr
      intro c hc
      have hclt : c < cols := List.mem_range.mp hc
      rw [getD_of_cellAtN g r c _ (hcells r c hr hclt)]
      by_cases hmem : (r, c) ∈ ps
      · simp [hmem]
      · simp [hmem]
    rw [List.map_congr_left (fun r hr => hrowwise r (List.mem_range.mp hr))]
    rw [mines_count_core rows cols ps hnd hbd]
    exact hlen
  · intro a ha y hy
    have hin := inB_of_cellAt_eq_some rows cols g hsh a.1 a.2 y hy
    obtain ⟨h1, h2, h3, h4⟩ := hin
    rw [cellAt_eq_cellAtN g a.1 a.2 h1 h3] at hy
    rw [hcells a.1.toNat a.2.toNat (by omega) (by omega)] at hy
    simp only [Option.some_inj] at hy
    by_cases hmem : (a.1.toNat, a.2.toNat) ∈ ps
    · exfalso
      have := havd _ hmem a ha
      apply this
      constructor
      · simp [Int.toNat_of_nonneg h1]
      · simp [Int.toNat_of_nonneg h3]
    · rw [if_neg hmem] at hy
      rw [← hy]
  · intro r c y hy hnm
    have hin := inB_of_cellAt_eq_some rows cols g hsh r c y hy
    obtain ⟨h1, h2, h3, h4⟩ := hin
    rw [cellAt_eq_cellAtN g r c h1 h3] at hy
    rw [hcells r.toNat c.toNat (by omega) (by omega)] at hy
    simp only [Option.some_inj] at hy
    by_cases hmem : (r.toNat, c.toNat) ∈ ps
    · rw [if_pos hmem] at hy
      rw [← hy] at hnm
      exact absurd hnm (by simp)
    · rw [if_neg hmem] at hy
      have hcenter : mineAtB rows cols (setMines (blankGrid rows cols) ps)
          (r.toNat : Int) (c.toNat : Int) = false := by
        unfold mineAtB
        have hpre : cellAtN (setMines (blankGrid rows cols) ps) r.toNat c.toNat =
            some mkCell := by
          rw [cellAtN_setMines, cellAtN_blankGrid, if_pos ⟨by omega, by omega⟩]
          simp [hmem]
        rw [show ((r.toNat : Int)).toNat = r.toNat by omega,
          show ((c.toNat : Int)).toNat = c.toNat by omega]
        rw [getD_of_cellAtN _ _ _ _ hpre]
        simp [mkCell]
      have hcode := codeNeighborMines_eq_spec rows cols
        (setMines (blankGrid rows cols) ps) r.toNat c.toNat hcenter
      have hfilters : specNeighborMines rows cols (setMines (blankGrid rows cols) ps)
          (r.toNat : Int) (c.toNat : Int) = specNeighborMines rows cols g r c := by
        unfold specNeighborMines
        rw [show ((r.toNat : Int)) = r from Int.toNat_of_nonneg h1,
          show ((c.toNat : Int)) = c from Int.toNat_of_nonneg h3]
        rw [List.filter_congr]
        intro d hd
        exact mineAtB_pre_final rows cols g ps hcells (r + d.1) (c + d.2)
      rw [← hy]
      simp only []
      rw [hcode, hfilters]

def gW3 : Grid :=
  [[⟨false, false, false, 1⟩, ⟨true, false, false, 0⟩],
   [⟨false, false, false, 1⟩, ⟨false, false, false, 1⟩]]

/-- Witness for C3 on a concrete 2×2 generation avoiding `(0,0)`. -/
theorem C3_initializeGrid_spec_witness :
    0 < 2 ∧ 0 < 2 ∧ initializeGrid 2 2 1 (some (0, 0)) [(0, 1)] = some gW3 ∧
      (countMines gW3 = 1 ∧
       (∀ a : Int × Int, some ((0 : Int), (0 : Int)) = some a →
         ∀ y, cellAt gW3 a.1 a.2 = some y → y.isMine = false) ∧
       (∀ (r c : Int) (y : CellState), cellAt gW3 r c = some y → y.isMine = false →
         y.neighborMines = specNeighborMines 2 2 gW3 r c)) :=
  ⟨by decide, by decide, by decide,
    C3_initializeGrid_spec 2 2 1 (some (0, 0)) [(0, 1)] gW3 (by decide) (by decide) (by decide)⟩

def stW1 : GameState :=
  ⟨2, 2, 1, [[mkCell, mkCell], [mkCell, mkCell]], GameStatus.playing, true⟩

def stW1r : GameState :=
  ⟨2, 2, 1,
   [[⟨false, false, false, 1⟩, ⟨true, false, false, 0⟩],
    [⟨false, false, false, 1⟩, ⟨false, false, false, 1⟩]],
   GameStatus.playing, false⟩

/-- C1 (counterexample): the first reveal of a fresh game regenerates the
board but applies no reveal — afterwards the clicked cell `(0,0)` is still
`isRevealed = false`, contradicting the claim that the reveal is applied to
the regenerated board. -/
theorem C1_first_reveal_counterexample :
    stW1.status = GameStatus.playing ∧ stW1.firstClick = true ∧
      revealCell [(0, 0), (0, 1)] stW1 0 0 = Except.ok stW1r ∧
      cellAt stW1r.grid 0 0 = some ⟨false, false, false, 1⟩ := by
  refine ⟨rfl, rfl, rfl, by decide⟩

/-- C1 (amended): on the very first reveal of a fresh game the board is
discarded and regenerated via `initializeGrid` with the clicked cell avoided,
and the regenerated board is returned with **no** reveal applied: the clicked
cell is never a mine, but it is also left unrevealed. -/
theorem C1_first_click_regenerates (rand : List (Nat × Nat)) (st : GameState)
    (row col : Int) (g : Grid)
    (hst : st.status = GameStatus.playing) (hfc : st.firstClick = true)
    (hrows : 0 < st.rows) (hcols : 0 < st.cols)
    (hgen : initializeGrid st.rows st.cols st.mines (some (row, col)) rand = some g) :
    revealCell rand st row col = Except.ok { st with grid := g, firstClick := false } ∧
    ∀ y, cellAt g row col = some y → y.isMine = false ∧ y.isRevealed = false := by
  constructor
  · unfold revealCell revealUpdater
    rw [if_neg (by simp [hst]), hfc]
    simp only [if_true, hgen]
    rfl
  · intro y hy
    have hps0 : ∃ ps, placeMines st.rows st.cols st.mines (some (row, col)) rand [] =
        some ps := by
      unfold initializeGrid at hgen
      rcases hps : placeMines st.rows st.cols st.mines (some (row, col)) rand [] with _ | ps
      · rw [hps] at hgen
        exact absurd hgen (by simp)
      · exact ⟨ps, rfl⟩
    obtain ⟨ps, hps⟩ := hps0
    obtain ⟨hnd, hbd, havd, hlen⟩ := placeMines_spec st.rows st.cols st.mines
      (some (row, col)) hrows hcols rand [] ps (by simp) (by simp) (by simp) (by simp) hps
    have hsh := initializeGrid_shape st.rows st.cols st.mines (some (row, col)) rand g hgen
    have hcells := initializeGrid_cells st.rows st.cols st.mines (some (row, col))
      rand g ps hps hgen
    have hin := inB_of_cellAt_eq_some st.rows st.cols g hsh row col y hy
    obtain ⟨h1, h2, h3, h4⟩ := hin
    rw [cellAt_eq_cellAtN g row col h1 h3] at hy
    rw [hcells row.toNat col.toNat (by omega) (by omega)] at hy
    simp only [Option.some_inj] at hy
    by_cases hmem : (row.toNat, col.toNat) ∈ ps
    · exfalso
      apply havd _ hmem (row, col) rfl
      constructor
      · simp [Int.toNat_of_nonneg h1]
      · simp [Int.toNat_of_nonneg h3]
    · rw [if_neg hmem] at hy
      rw [← hy]
      exact ⟨rfl, rfl⟩

/-- Witness for the amended C1 on a concrete fresh game. -/
theorem C1_first_click_regenerates_witness :
    stW1.status = GameStatus.playing ∧ stW1.firstClick = true ∧ 0 < stW1.rows ∧
      0 < stW1.cols ∧
      initializeGrid stW1.rows stW1.cols stW1.mines (some (0, 0)) [(0, 0), (0, 1)] =
        some stW1r.grid ∧
      (revealCell [(0, 0), (0, 1)] stW1 0 0 =
        Except.ok { stW1 with grid := stW1r.grid, firstClick := false } ∧
       ∀ y, cellAt stW1r.grid 0 0 = some y → y.isMine = false ∧ y.isRevealed = false) :=
  ⟨rfl, rfl, by decide, by decide, by decide,
    C1_first_click_regenerates [(0, 0), (0, 1)] stW1 0 0 stW1r.grid rfl rfl
      (by decide) (by decide) (by decide)⟩

/-! ### Flood fill only turns `isRevealed` on (C6, C7 support) -/

theorem reveal_if_comp (o : Option CellState) (b1 b2 : Bool) :
    ((o.map fun x => if b1 then { x with isRevealed := true } else x).map
      fun x => if b2 then { x with isRevealed := true } else x) =
    o.map fun x => if (b1 || b2) then { x with isRevealed := true } else x := by
  cases o <;> cases b1 <;> cases b2 <;> rfl

theorem floodNeighbors_weak (rows cols : Nat) (ds : List (Int × Int)) :
    ∀ (g : Grid) (p : Int × Int) (r c : Nat), ∃ b : Bool,
      cellAtN (floodNeighbors rows cols g p ds).1 r c =
        (cellAtN g r c).map fun x => if b then { x with isRevealed := true } else x := by
  induction ds with
  | nil =>
    intro g p r c
    refine ⟨false, ?_⟩
    simp only [floodNeighbors]
    cases cellAtN g r c <;> rfl
  | cons d ds ih =>
    intro g p r c
    simp only [floodNeighbors]
    split
    · split
      · obtain ⟨b, hb⟩ := ih (updateCellN g (p.1 + d.1).toNat (p.2 + d.2).toNat
          fun x => { x with isRevealed := true }) p r c
        by_cases hrc : r = (p.1 + d.1).toNat ∧ c = (p.2 + d.2).toNat
        · refine ⟨true, ?_⟩
          rw [hb, hrc.1, hrc.2, cellAtN_updateCellN_self]
          cases cellAtN g (p.1 + d.1).toNat (p.2 + d.2).toNat <;> cases b <;> rfl
        · refine ⟨b, ?_⟩
          rw [hb, cellAtN_updateCellN_ne g _ _ r c _ (by tauto)]
      · exact ih g p r c
    · exact ih g p r c

theorem floodNeighbors_shape (rows cols : Nat) (ds : List (Int × Int)) :
    ∀ (g : Grid) (p : Int × Int), gridShape rows cols g →
      gridShape rows cols (floodNeighbors rows cols g p ds).1 := by
  induction ds with
  | nil => intro g p hg; simpa [floodNeighbors] using hg
  | cons d ds ih =>
    intro g p hg
    simp only [floodNeighbors]
    split
    · split
      · exact ih _ p (gridShape_updateCellN rows cols g _ _ _ hg)
      · exact ih g p hg
    · exact ih g p hg

theorem floodFill_weak (rows cols : Nat) :
    ∀ (g : Grid) (Q : List (Int × Int)) (V : Finset (Int × Int)) (r c : Nat), ∃ b : Bool,
      cellAtN (floodFill rows cols g Q V) r c =
        (cellAtN g r c).map fun x => if b then { x with isRevealed := true } else x := by
  intro g Q V
  induction g, Q, V using floodFill.induct rows cols with
  | case1 g V =>
    intro r c
    refine ⟨false, ?_⟩
    simp only [floodFill]
    cases cellAtN g r c <;> rfl
  | case2 g p rest V hmem ih =>
    intro r c
    simp only [floodFill, if_pos hmem]
    exact ih r c
  | case3 g p rest V hmem s ih =>
    intro r c
    simp only [floodFill, if_neg hmem]
    obtain ⟨b1, hb1⟩ := floodNeighbors_weak rows cols offsets g p r c
    obtain ⟨b2, hb2⟩ := ih r c
    refine ⟨b1 || b2, ?_⟩
    rw [hb2, hb1, reveal_if_comp]

theorem floodFill_shape (rows cols : Nat) :
    ∀ (g : Grid) (Q : List (Int × Int)) (V : Finset (Int × Int)), gridShape rows cols g →
      gridShape rows cols (floodFill rows cols g Q V) := by
  intro g Q V
  induction g, Q, V using floodFill.induct rows cols with
  | case1 g V =>
    intro hg
    simpa [floodFill] using hg
  | case2 g p rest V hmem ih =>
    intro hg
    simp only [floodFill, if_pos hmem]
    exact ih hg
  | case3 g p rest V hmem s ih =>
    intro hg
    simp only [floodFill, if_neg hmem]
    exact ih (floodNeighbors_shape rows cols offsets g p hg)

/-- `g'` refines `g` by possibly revealing cells: every cell keeps its mine,
flag and count data, loses no reveal, and no cell appears or disappears. -/
def Preserves (g g' : Grid) : Prop :=
  ∀ (r c : Int) (x : CellState), cellAt g r c = some x →
    ∃ x', cellAt g' r c = some x' ∧ x'.isMine = x.isMine ∧ x'.isFlagged = x.isFlagged ∧
      x'.neighborMines = x.neighborMines ∧ (x.isRevealed = true → x'.isRevealed = true)

theorem Preserves_refl (g : Grid) : Preserves g g :=
  fun _ _ x hx => ⟨x, hx, rfl, rfl, rfl, fun h => h⟩

theorem Preserves_trans (g1 g2 g3 : Grid) (h12 : Preserves g1 g2) (h23 : Preserves g2 g3) :
    Preserves g1 g3 := by
  intro r c x hx
  obtain ⟨x2, hx2, e1, e2, e3, e4⟩ := h12 r c x hx
  obtain ⟨x3, hx3, f1, f2, f3, f4⟩ := h23 r c x2 hx2
  exact ⟨x3, hx3, by rw [f1, e1], by rw [f2, e2], by rw [f3, e3],
    fun h => f4 (e4 h)⟩

theorem Preserves_updateCellN_reveal (g : Grid) (row col : Int)
    (hr : 0 ≤ row) (hc : 0 ≤ col) :
    Preserves g (updateCellN g row.toNat col.toNat fun x => { x with isRevealed := true }) := by
  intro r c x hx
  by_cases hrc : (r, c) = (row, col)
  · obtain ⟨e1, e2⟩ := Prod.mk.injEq .. ▸ hrc
    subst e1
    subst e2
    rw [cellAt_update_self g r c hr hc, hx]
    exact ⟨{ x with isRevealed := true }, rfl, rfl, rfl, rfl, fun _ => rfl⟩
  · rw [cellAt_update_ne g row col r c hr hc _ hrc, hx]
    exact ⟨x, rfl, rfl, rfl, rfl, fun h => h⟩

theorem Preserves_revealAllMines (g : Grid) : Preserves g (revealAllMines g) := by
  intro r c x hx
  rw [cellAt_revealAllMines, hx]
  by_cases hm : x.isMine
  · simp only [Option.map_some', if_pos hm]
    exact ⟨_, rfl, rfl, rfl, rfl, fun _ => rfl⟩
  · simp only [Option.map_some', if_neg hm]
    exact ⟨x, rfl, rfl, rfl, rfl, fun h => h⟩

theorem Preserves_floodFill (rows cols : Nat) (g : Grid) (Q : List (Int × Int))
    (V : Finset (Int × Int)) : Preserves g (floodFill rows cols g Q V) := by
  intro r c x hx
  have hneg : 0 ≤ r ∧ 0 ≤ c := by
    by_contra hcon
    rw [cellAt_eq_none_of_neg g r c (by omega)] at hx
    exact absurd hx (by simp)
  obtain ⟨b, hb⟩ := floodFill_weak rows cols g Q V r.toNat c.toNat
  rw [cellAt_eq_cellAtN g r c hneg.1 hneg.2] at hx
  rw [cellAt_eq_cellAtN _ r c hneg.1 hneg.2, hb, hx]
  cases b
  · exact ⟨x, rfl, rfl, rfl, rfl, fun h => h⟩
  · exact ⟨{ x with isRevealed := true }, rfl, rfl, rfl, rfl, fun _ => rfl⟩

/-- A `revealCell` updater run with `status0 = playing`, `fc0 = false` on an
in-bounds target succeeds, preserves shape and cell data, and leaves an
unflagged target revealed. -/
theorem revealUpdater_spec (rand : List (Nat × Nat)) (rows cols mines : Nat)
    (g : Grid) (row col : Int) (x : CellState)
    (hsh : gridShape rows cols g) (hx : cellAt g row col = some x) :
    ∃ res : Grid × Bool × Bool,
      revealUpdater rand rows cols mines GameStatus.playing false g row col =
        Except.ok res ∧
      gridShape rows cols res.1 ∧ Preserves g res.1 ∧
      (x.isFlagged = false → ∀ x', cellAt res.1 row col = some x' →
        x'.isRevealed = true) := by
  have hneg : 0 ≤ row ∧ 0 ≤ col := by
    by_contra hcon
    rw [cellAt_eq_none_of_neg g row col (by omega)] at hx
    exact absurd hx (by simp)
  unfold revealUpdater
  rw [if_neg (by simp), hx]
  simp only [Bool.false_eq_true, if_false]
  by_cases hrf : x.isRevealed ∨ x.isFlagged
  · rw [if_pos hrf]
    refine ⟨(g, false, false), rfl, hsh, Preserves_refl g, ?_⟩
    intro hflag x' hx'
    rcases hrf with hrev | hflag2
    · rw [hx] at hx'
      simp only [Option.some_inj] at hx'
      rw [← hx']
      exact hrev
    · exact absurd hflag2 (by simp [hflag])
  · rw [if_neg hrf]
    push_neg at hrf
    have hxrev : x.isRevealed = false := by simpa using hrf.1
    have hg1 : cellAt (updateCellN g row.toNat col.toNat fun y =>
        { y with isRevealed := true }) row col = some { x with isRevealed := true } := by
      rw [cellAt_update_self g row col hneg.1 hneg.2, hx]
      rfl
    have hg1p : Preserves g (updateCellN g row.toNat col.toNat fun y =>
        { y with isRevealed := true }) := Preserves_updateCellN_reveal g row col hneg.1 hneg.2
    have hg1sh : gridShape rows cols (updateCellN g row.toNat col.toNat fun y =>
        { y with isRevealed := true }) := gridShape_updateCellN rows cols g _ _ _ hsh
    by_cases hm : x.isMine
    · rw [if_pos hm]
      refine ⟨_, rfl, gridShape_revealAllMines rows cols _ hg1sh,
        Preserves_trans _ _ _ hg1p (Preserves_revealAllMines _), ?_⟩
      intro hflag x' hx'
      obtain ⟨x2, hx2, e1, e2, e3, e4⟩ := Preserves_revealAllMines _ row col _ hg1
      rw [hx2] at hx'
      simp only [Option.some_inj] at hx'
      rw [← hx']
      exact e4 rfl
    · rw [if_neg hm]
      by_cases hz : x.neighborMines = 0
      · rw [if_pos hz]
        refine ⟨_, rfl, floodFill_shape rows cols _ _ _ hg1sh,
          Preserves_trans _ _ _ hg1p (Preserves_floodFill rows cols _ _ _), ?_⟩
        intro hflag x' hx'
        obtain ⟨x2, hx2, e1, e2, e3, e4⟩ :=
          Preserves_floodFill rows cols _ [(row, col)] ∅ row col _ hg1
        rw [hx2] at hx'
        simp only [Option.some_inj] at hx'
        rw [← hx']
        exact e4 rfl
      · rw [if_neg hz]
        refine ⟨_, rfl, hg1sh, hg1p, ?_⟩
        intro hflag x' hx'
        rw [hg1] at hx'
        simp only [Option.some_inj] at hx'
        rw [← hx']

theorem chordCandidates_inB (rows cols : Nat) (g : Grid) (row col : Int) :
    ∀ q ∈ chordCandidates rows cols g row col, inB rows cols q.1 q.2 := by
  intro q hq
  unfold chordCandidates at hq
  rcases List.mem_filterMap.mp hq with ⟨d, hd, hfd⟩
  simp only at hfd
  split at hfd
  · split at hfd
    · simp only [Option.some_inj] at hfd
      rw [← hfd]
      assumption
    · exact absurd hfd (by simp)
  · exact absurd hfd (by simp)

theorem mem_chordCandidates (rows cols : Nat) (g : Grid) (row col : Int)
    (hsh : gridShape rows cols g) (d : Int × Int) (hd : d ∈ offsets) (y : CellState)
    (hy : cellAt g (row + d.1) (col + d.2) = some y)
    (hrev : y.isRevealed = false) (hflag : y.isFlagged = false) :
    (row + d.1, col + d.2) ∈ chordCandidates rows cols g row col := by
  have hin : inB rows cols (row + d.1) (col + d.2) :=
    inB_of_cellAt_eq_some rows cols g hsh _ _ y hy
  have hgd : (g.getD (row + d.1).toNat []).getD (col + d.2).toNat mkCell = y := by
    apply getD_of_cellAtN
    rw [← cellAt_eq_cellAtN g _ _ hin.1 hin.2.2.1]
    exact hy
  unfold chordCandidates
  apply List.mem_filterMap.mpr
  refine ⟨d, hd, ?_⟩
  simp only
  rw [if_pos hin, hgd]
  rw [if_pos (by simp [hrev, hflag])]

theorem chordFold_spec (rand : List (Nat × Nat)) (rows cols mines : Nat) :
    ∀ (cands : List (Int × Int)) (g0 : Grid) (l0 f0 : Bool),
      gridShape rows cols g0 → (∀ q ∈ cands, inB rows cols q.1 q.2) →
      ∃ res : Grid × Bool × Bool,
        cands.foldl (fun acc q => acc.bind fun r =>
          (revealUpdater rand rows cols mines GameStatus.playing false r.1 q.1 q.2).map
            fun r2 => (r2.1, r.2.1 || r2.2.1, r.2.2 || r2.2.2))
          (Except.ok (g0, l0, f0)) = Except.ok res ∧
        gridShape rows cols res.1 ∧ Preserves g0 res.1 ∧
        ∀ q ∈ cands, ∀ x, cellAt g0 q.1 q.2 = some x → x.isFlagged = false →
          ∀ x', cellAt res.1 q.1 q.2 = some x' → x'.isRevealed = true := by
  intro cands
  induction cands with
  | nil =>
    intro g0 l0 f0 hsh hin
    exact ⟨(g0, l0, f0), rfl, hsh, Preserves_refl _, by simp⟩
  | cons q rest ih =>
    intro g0 l0 f0 hsh hin
    obtain ⟨x, hx⟩ := cellAt_isSome_of_inB rows cols g0 hsh q.1 q.2
      (hin q (List.mem_cons_self q rest))
    obtain ⟨res1, hres1, hsh1, hpres1, hq1⟩ :=
      revealUpdater_spec rand rows cols mines g0 q.1 q.2 x hsh hx
    obtain ⟨res, hres, hshR, hpresR, hrevR⟩ := ih res1.1 (l0 || res1.2.1) (f0 || res1.2.2)
      hsh1 (fun q2 hq2 => hin q2 (List.mem_cons_of_mem q hq2))
    refine ⟨res, ?_, hshR, Preserves_trans _ _ _ hpres1 hpresR, ?_⟩
    · rw [List.foldl_cons]
      have hstep : ((Except.ok (g0, l0, f0) : Except JsErr (Grid × Bool × Bool)).bind
          fun r => (revealUpdater rand rows cols mines GameStatus.playing false
            r.1 q.1 q.2).map fun r2 => (r2.1, r.2.1 || r2.2.1, r.2.2 || r2.2.2)) =
          Except.ok (res1.1, l0 || res1.2.1, f0 || res1.2.2) := by
        show ((revealUpdater rand rows cols mines GameStatus.playing false
          g0 q.1 q.2).map fun r2 => (r2.1, l0 || r2.2.1, f0 || r2.2.2)) = _
        rw [hres1]
        rfl
      rw [hstep]
      exact hres
    · intro q2 hq2 x0 hx0 hflag x' hx'
      rcases List.mem_cons.mp hq2 with heq | hmem
      · subst heq
        rw [hx] at hx0
        simp only [Option.some_inj] at hx0
        subst hx0
        obtain ⟨x1, hx1, e1, e2, e3, e4⟩ := hpres1 q2.1 q2.2 _ hx
        have hx1rev : x1.isRevealed = true := hq1 hflag x1 hx1
        obtain ⟨x2, hx2, f1, f2, f3, f4⟩ := hpresR q2.1 q2.2 x1 hx1
        rw [hx2] at hx'
        simp only [Option.some_inj] at hx'
        rw [← hx']
        exact f4 hx1rev
      · obtain ⟨x1, hx1, e1, e2, e3, e4⟩ := hpres1 q2.1 q2.2 x0 hx0
        have hx1flag : x1.isFlagged = false := by rw [e2, hflag]
        exact hrevR q2 hmem x1 hx1 hx1flag x' hx'

/-- C7: while playing (and past the first click), `revealAdjacent` is a no-op
unless the target cell is revealed with a positive neighbor count; when the
count of flagged neighbors differs from the target's `neighborMines`, nothing
happens (no error, state returned unchanged); when it matches, the call
succeeds and every in-bounds neighbor that was neither revealed nor flagged
is revealed in the resulting state. -/
theorem revealAdjacent_eq (rand : List (Nat × Nat)) (st : GameState) (row col : Int)
    (x : CellState) (hst : st.status = GameStatus.playing)
    (hx : cellAt st.grid row col = some x) :
    revealAdjacent rand st row col =
      (if ¬x.isRevealed = true ∨ x.neighborMines = 0 then Except.ok st
       else if chordFlagCount st.rows st.cols st.grid row col = x.neighborMines then
        ((chordCandidates st.rows st.cols st.grid row col).foldl
          (fun acc q => acc.bind fun r =>
            (revealUpdater rand st.rows st.cols st.mines st.status st.firstClick
                r.1 q.1 q.2).map
              fun r2 => (r2.1, r.2.1 || r2.2.1, r.2.2 || r2.2.2))
          (Except.ok (st.grid, false, false))).map
          fun r => { st with
            grid := r.1,
            status := if r.2.1 then GameStatus.lost else st.status,
            firstClick := if r.2.2 then false else st.firstClick }
       else Except.ok st) := by
  unfold revealAdjacent
  rw [if_neg (by simp [hst]), hx]

/-- C7: while playing (and past the first click), `revealAdjacent` is a no-op
unless the target cell is revealed with a positive neighbor count; when the
count of flagged neighbors differs from the target's `neighborMines`, nothing
happens (no error, state returned unchanged); when it matches, the call
succeeds and every in-bounds neighbor that was neither revealed nor flagged
is revealed in the resulting state. -/
theorem C7_chordReveal_spec (rand : List (Nat × Nat)) (st : GameState) (row col : Int)
    (x : CellState) (hsh : gridShape st.rows st.cols st.grid)
    (hst : st.status = GameStatus.playing) (hfc : st.firstClick = false)
    (hx : cellAt st.grid row col = some x) :
    (¬(x.isRevealed = true ∧ x.neighborMines ≠ 0) →
      revealAdjacent rand st row col = Except.ok st) ∧
    (x.isRevealed = true → x.neighborMines ≠ 0 →
      chordFlagCount st.rows st.cols st.grid row col ≠ x.neighborMines →
      revealAdjacent rand st row col = Except.ok st) ∧
    (x.isRevealed = true → x.neighborMines ≠ 0 →
      chordFlagCount st.rows st.cols st.grid row col = x.neighborMines →
      ∃ st2, revealAdjacent rand st row col = Except.ok st2 ∧
        ∀ d ∈ offsets, ∀ y, cellAt st.grid (row + d.1) (col + d.2) = some y →
          y.isRevealed = false → y.isFlagged = false →
          ∀ y', cellAt st2.grid (row + d.1) (col + d.2) = some y' →
            y'.isRevealed = true) := by
  rw [revealAdjacent_eq rand st row col x hst hx]
  refine ⟨?_, ?_, ?_⟩
  · intro ha
    rw [if_pos (by
      by_cases hrev : x.isRevealed = true
      · right
        by_contra hz
        exact ha ⟨hrev, hz⟩
      · left
        simpa using hrev)]
  · intro hrev hnz hne
    rw [if_neg (by
      rintro (h | h)
      · exact h hrev
      · exact hnz h)]
    rw [if_neg hne]
  · intro hrev hnz heq
    rw [if_neg (by
      rintro (h | h)
      · exact h hrev
      · exact hnz h)]
    rw [if_pos heq, hst, hfc]
    obtain ⟨res, hres, hshR, hpresR, hrevR⟩ := chordFold_spec rand st.rows st.cols st.mines
      (chordCandidates st.rows st.cols st.grid row col) st.grid false false hsh
      (chordCandidates_inB st.rows st.cols st.grid row col)
    refine ⟨{ st with
        grid := res.1
        status := if res.2.1 then GameStatus.lost else GameStatus.playing
        firstClick := if res.2.2 then false else false }, ?_, ?_⟩
    · rw [hres]
      rfl
    · intro d hd y hy hyrev hyflag y2 hy2
      have hq := mem_chordCandidates st.rows st.cols st.grid row col hsh d hd y hy hyrev hyflag
      exact hrevR (row + d.1, col + d.2) hq y hy hyflag y2 hy2

def stW7 : GameState :=
  ⟨2, 2, 1,
   [[⟨true, false, true, 0⟩, ⟨false, false, false, 1⟩],
    [⟨false, false, false, 1⟩, ⟨false, true, false, 1⟩]],
   GameStatus.playing, false⟩

/-- Witness for C7 at a concrete state: chording the revealed count-1 cell
`(1,1)` with one flagged neighbor. -/
theorem C7_chordReveal_spec_witness :
    gridShape stW7.rows stW7.cols stW7.grid ∧ stW7.status = GameStatus.playing ∧
      stW7.firstClick = false ∧ cellAt stW7.grid 1 1 = some ⟨false, true, false, 1⟩ ∧
      ((¬((true : Bool) = true ∧ (1 : Nat) ≠ 0) →
        revealAdjacent [] stW7 1 1 = Except.ok stW7) ∧
       ((true : Bool) = true → (1 : Nat) ≠ 0 →
        chordFlagCount stW7.rows stW7.cols stW7.grid 1 1 ≠ 1 →
        revealAdjacent [] stW7 1 1 = Except.ok stW7) ∧
       ((true : Bool) = true → (1 : Nat) ≠ 0 →
        chordFlagCount stW7.rows stW7.cols stW7.grid 1 1 = 1 →
        ∃ st2, revealAdjacent [] stW7 1 1 = Except.ok st2 ∧
          ∀ d ∈ offsets, ∀ y, cellAt stW7.grid (1 + d.1) (1 + d.2) = some y →
            y.isRevealed = false → y.isFlagged = false →
            ∀ y', cellAt st2.grid (1 + d.1) (1 + d.2) = some y' →
              y'.isRevealed = true)) :=
  ⟨by decide, rfl, rfl, by decide,
    C7_chordReveal_spec [] stW7 1 1 ⟨false, true, false, 1⟩ (by decide) rfl rfl (by decide)⟩

/-! ### Exact characterization of the flood fill (C6) -/

theorem shift_exists_cons (p d : Int × Int) (ds : List (Int × Int)) (r c : Int)
    (hne : (r, c) ≠ (p.1 + d.1, p.2 + d.2)) :
    (∃ e ∈ d :: ds, (r, c) = (p.1 + e.1, p.2 + e.2)) ↔
      (∃ e ∈ ds, (r, c) = (p.1 + e.1, p.2 + e.2)) := by
  constructor
  · rintro ⟨e, he, heq⟩
    rcases List.mem_cons.mp he with rfl | he2
    · exact absurd heq hne
    · exact ⟨e, he2, heq⟩
  · rintro ⟨e, he, heq⟩
    exact ⟨e, List.mem_cons_of_mem d he, heq⟩

theorem shift_not_in_tail (p d : Int × Int) (ds : List (Int × Int)) (hd : d ∉ ds) :
    ¬∃ e ∈ ds, ((p.1 + d.1, p.2 + d.2) : Int × Int) = (p.1 + e.1, p.2 + e.2) := by
  rintro ⟨e, he, heq⟩
  have h1 : p.1 + d.1 = p.1 + e.1 := congrArg Prod.fst heq
  have h2 : p.2 + d.2 = p.2 + e.2 := congrArg Prod.snd heq
  have : d = e := by
    have e1 : d.1 = e.1 := by omega
    have e2 : d.2 = e.2 := by omega
    exact Prod.ext e1 e2
  rw [this] at hd
  exact hd he

theorem floodNeighbors_char (rows cols : Nat) :
    ∀ (ds : List (Int × Int)), ds.Nodup →
    ∀ (g : Grid) (p : Int × Int), gridShape rows cols g →
      (∀ (r c : Int),
        cellAt (floodNeighbors rows cols g p ds).1 r c =
          (cellAt g r c).map fun y =>
            if (∃ d ∈ ds, (r, c) = (p.1 + d.1, p.2 + d.2)) ∧ y.isRevealed = false ∧
                y.isFlagged = false ∧ y.isMine = false
            then { y with isRevealed := true } else y) ∧
      (∀ q : Int × Int, q ∈ (floodNeighbors rows cols g p ds).2 ↔
        ((∃ d ∈ ds, q = (p.1 + d.1, p.2 + d.2)) ∧ inB rows cols q.1 q.2 ∧
          ∃ y, cellAt g q.1 q.2 = some y ∧ y.isRevealed = false ∧ y.isFlagged = false ∧
            y.isMine = false ∧ y.neighborMines = 0)) := by
  intro ds
  induction ds with
  | nil =>
    intro _ g p hsh
    constructor
    · intro r c
      simp only [floodNeighbors]
      rcases cellAt g r c with _ | y
      · rfl
      · simp
    · intro q
      simp [floodNeighbors]
  | cons d ds ih =>
    intro hnd g p hsh
    have hdnin : d ∉ ds := (List.nodup_cons.mp hnd).1
    have hndtl : ds.Nodup := (List.nodup_cons.mp hnd).2
    by_cases hin : inB rows cols (p.1 + d.1) (p.2 + d.2)
    · obtain ⟨y0, hy0⟩ := cellAt_isSome_of_inB rows cols g hsh _ _ hin
      have hgd : (g.getD (p.1 + d.1).toNat []).getD (p.2 + d.2).toNat mkCell = y0 := by
        apply getD_of_cellAtN
        rw [← cellAt_eq_cellAtN g _ _ hin.1 hin.2.2.1]
        exact hy0
      by_cases hguard : y0.isRevealed = false ∧ y0.isFlagged = false ∧ y0.isMine = false
      · -- the neighbor is revealed and possibly pushed
        have hfn : floodNeighbors rows cols g p (d :: ds) =
            (let g2 := updateCellN g (p.1 + d.1).toNat (p.2 + d.2).toNat
              fun x => { x with isRevealed := true }
             let s := floodNeighbors rows cols g2 p ds
             (s.1, if y0.neighborMines = 0 then (p.1 + d.1, p.2 + d.2) :: s.2 else s.2)) := by
          simp only [floodNeighbors]
          rw [if_pos hin, hgd]
          rw [if_pos (by simp [hguard.1, hguard.2.1, hguard.2.2])]
        have hg2sh : gridShape rows cols (updateCellN g (p.1 + d.1).toNat
            (p.2 + d.2).toNat fun x => { x with isRevealed := true }) :=
          gridShape_updateCellN rows cols g _ _ _ hsh
        obtain ⟨ih1, ih2⟩ := ih hndtl (updateCellN g (p.1 + d.1).toNat (p.2 + d.2).toNat
          fun x => { x with isRevealed := true }) p hg2sh
        have hcell2 : ∀ (r c : Int), (r, c) ≠ (p.1 + d.1, p.2 + d.2) →
            cellAt (updateCellN g (p.1 + d.1).toNat (p.2 + d.2).toNat
              fun x => { x with isRevealed := true }) r c = cellAt g r c := by
          intro r c hne
          exact cellAt_update_ne g _ _ r c hin.1 hin.2.2.1 _ hne
        have hcell2q : cellAt (updateCellN g (p.1 + d.1).toNat (p.2 + d.2).toNat
            fun x => { x with isRevealed := true }) (p.1 + d.1) (p.2 + d.2) =
            some { y0 with isRevealed := true } := by
          rw [cellAt_update_self g _ _ hin.1 hin.2.2.1, hy0]
          rfl
        constructor
        · intro r c
          rw [hfn]
          simp only
          rw [ih1 r c]
          by_cases hrc : (r, c) = (p.1 + d.1, p.2 + d.2)
          · have e1 : r = p.1 + d.1 := congrArg Prod.fst hrc
            have e2 : c = p.2 + d.2 := congrArg Prod.snd hrc
            subst e1
            subst e2
            rw [hcell2q, hy0]
            simp only [Option.map_some']
            rw [if_neg (by
              rintro ⟨_, hrev2, _⟩
              simp at hrev2)]
            rw [if_pos ⟨⟨d, List.mem_cons_self d ds, rfl⟩, hguard⟩]
          · rw [hcell2 r c hrc]
            rcases hy : cellAt g r c with _ | y
            · rfl
            · simp only [Option.map_some']
              rw [if_congr (and_congr_left_iff.mpr
                (fun _ => shift_exists_cons p d ds r c hrc)) rfl rfl]
        · intro q
          rw [hfn]
          simp only
          by_cases hq : q = (p.1 + d.1, p.2 + d.2)
          · subst hq
            constructor
            · intro hmem
              refine ⟨⟨d, List.mem_cons_self d ds, rfl⟩, hin, y0, hy0, hguard.1,
                hguard.2.1, hguard.2.2, ?_⟩
              by_cases hz : y0.neighborMines = 0
              · exact hz
              · rw [if_neg hz] at hmem
                rw [ih2 _] at hmem
                obtain ⟨⟨e, he, heq⟩, _, y2, hy2, hrev2, _⟩ := hmem
                exact absurd ⟨e, he, heq⟩ (shift_not_in_tail p d ds hdnin)
            · rintro ⟨_, _, y, hy, hrev, hflag, hmine, hz⟩
              rw [hy0] at hy
              simp only [Option.some_inj] at hy
              subst hy
              rw [if_pos hz]
              exact List.mem_cons_self _ _
          · have hstep : q ∈ (if y0.neighborMines = 0
                then ((p.1 + d.1, p.2 + d.2) : Int × Int) ::
                  (floodNeighbors rows cols (updateCellN g (p.1 + d.1).toNat
                    (p.2 + d.2).toNat fun x => { x with isRevealed := true }) p ds).2
                else (floodNeighbors rows cols (updateCellN g (p.1 + d.1).toNat
                  (p.2 + d.2).toNat fun x => { x with isRevealed := true }) p ds).2) ↔
              q ∈ (floodNeighbors rows cols (updateCellN g (p.1 + d.1).toNat
                (p.2 + d.2).toNat fun x => { x with isRevealed := true }) p ds).2 := by
              by_cases hz : y0.neighborMines = 0
              · rw [if_pos hz]
                constructor
                · intro h
                  rcases List.mem_cons.mp h with h | h
                  · exact absurd h hq
                  · exact h
                · exact List.mem_cons_of_mem _
              · rw [if_neg hz]
            rw [hstep, ih2 q]
            have hq12 : (q.1, q.2) = q := rfl
            have hcells : cellAt (updateCellN g (p.1 + d.1).toNat (p.2 + d.2).toNat
                fun x => { x with isRevealed := true }) q.1 q.2 = cellAt g q.1 q.2 := by
              apply hcell2
              rw [hq12]
              exact hq
            rw [hcells]
            have hshift : (∃ e ∈ d :: ds, q = (p.1 + e.1, p.2 + e.2)) ↔
                (∃ e ∈ ds, q = (p.1 + e.1, p.2 + e.2)) := by
              constructor
              · rintro ⟨e, he, heq⟩
                rcases List.mem_cons.mp he with rfl | he2
                · exact absurd heq hq
                · exact ⟨e, he2, heq⟩
              · rintro ⟨e, he, heq⟩
                exact ⟨e, List.mem_cons_of_mem d he, heq⟩
            rw [hshift]
      · -- the neighbor fails the reveal guard: nothing happens for this offset
        have hfn : floodNeighbors rows cols g p (d :: ds) =
            floodNeighbors rows cols g p ds := by
          simp only [floodNeighbors]
          rw [if_pos hin, hgd]
          rw [if_neg (by
            rintro ⟨h1, h2, h3⟩
            exact hguard ⟨by simpa using h1, by simpa using h2, by simpa using h3⟩)]
        obtain ⟨ih1, ih2⟩ := ih hndtl g p hsh
        constructor
        · intro r c
          rw [hfn, ih1 r c]
          by_cases hrc : (r, c) = (p.1 + d.1, p.2 + d.2)
          · have e1 : r = p.1 + d.1 := congrArg Prod.fst hrc
            have e2 : c = p.2 + d.2 := congrArg Prod.snd hrc
            subst e1
            subst e2
            rw [hy0]
            simp only [Option.map_some']
            rw [if_neg (by
                rintro ⟨hex, _⟩
                exact absurd hex (shift_not_in_tail p d ds hdnin)),
              if_neg (by
                rintro ⟨hex, hprops⟩
                exact hguard hprops)]
          · rcases hy : cellAt g r c with _ | y
            · rfl
            · simp only [Option.map_some']
              rw [if_congr (and_congr_left_iff.mpr
                (fun _ => shift_exists_cons p d ds r c hrc)) rfl rfl]
        · intro q
          rw [hfn, ih2 q]
          by_cases hq : q = (p.1 + d.1, p.2 + d.2)
          · subst hq
            constructor
            · rintro ⟨hex, _⟩
              exact absurd hex (shift_not_in_tail p d ds hdnin)
            · rintro ⟨_, _, y, hy, hrev, hflag, hmine, _⟩
              rw [hy0] at hy
              simp only [Option.some_inj] at hy
              subst hy
              exact absurd ⟨hrev, hflag, hmine⟩ hguard
          · refine and_congr_left_iff.mpr fun _ => ?_
            constructor
            · rintro ⟨e, he, heq⟩
              exact ⟨e, List.mem_cons_of_mem d he, heq⟩
            · rintro ⟨e, he, heq⟩
              rcases List.mem_cons.mp he with rfl | he2
              · exact absurd heq hq
              · exact ⟨e, he2, heq⟩
    · -- out of bounds: nothing happens for this offset
      have hfn : floodNeighbors rows cols g p (d :: ds) =
          floodNeighbors rows cols g p ds := by
        simp only [floodNeighbors]
        rw [if_neg hin]
      obtain ⟨ih1, ih2⟩ := ih hndtl g p hsh
      have hnone : cellAt g (p.1 + d.1) (p.2 + d.2) = none :=
        cellAt_eq_none_of_not_inB rows cols g hsh _ _ hin
      constructor
      · intro r c
        rw [hfn, ih1 r c]
        by_cases hrc : (r, c) = (p.1 + d.1, p.2 + d.2)
        · have e1 : r = p.1 + d.1 := congrArg Prod.fst hrc
          have e2 : c = p.2 + d.2 := congrArg Prod.snd hrc
          subst e1
          subst e2
          rw [hnone]
          rfl
        · rcases hy : cellAt g r c with _ | y
          · rfl
          · simp only [Option.map_some']
            rw [if_congr (and_congr_left_iff.mpr
              (fun _ => shift_exists_cons p d ds r c hrc)) rfl rfl]
      · intro q
        rw [hfn, ih2 q]
        by_cases hq : q = (p.1 + d.1, p.2 + d.2)
        · subst hq
          constructor
          · rintro ⟨hex, _⟩
            exact absurd hex (shift_not_in_tail p d ds hdnin)
          · rintro ⟨_, hinq, _⟩
            exact absurd hinq hin
        · refine and_congr_left_iff.mpr fun _ => ?_
          constructor
          · rintro ⟨e, he, heq⟩
            exact ⟨e, List.mem_cons_of_mem d he, heq⟩
          · rintro ⟨e, he, heq⟩
            rcases List.mem_cons.mp he with rfl | he2
            · exact absurd heq hq
            · exact ⟨e, he2, heq⟩

/-- Adjacency through the source's offset table (the 8 neighbors, plus the
harmless self offset `(0,0)`). -/
def adjOff (p q : Int × Int) : Prop :=
  ∃ d ∈ offsets, q = (p.1 + d.1, p.2 + d.2)

/-- The positions the flood expansion visits, over the grid `g0` on which the
loop runs: the clicked cell plus the closure through in-bounds, unrevealed,
unflagged, non-mine, zero-count cells. -/
inductive Reach (rows cols : Nat) (g0 : Grid) (s : Int × Int) : Int × Int → Prop
  | base : Reach rows cols g0 s s
  | step (p q : Int × Int) : Reach rows cols g0 s p → adjOff p q →
      inB rows cols q.1 q.2 →
      (∃ y, cellAt g0 q.1 q.2 = some y ∧ y.isRevealed = false ∧ y.isFlagged = false ∧
        y.isMine = false ∧ y.neighborMines = 0) →
      Reach rows cols g0 s q

theorem cells_same_domain (rows cols : Nat) (g1 g2 : Grid)
    (h1 : gridShape rows cols g1) (h2 : gridShape rows cols g2) (r c : Int)
    (y : CellState) (hy : cellAt g1 r c = some y) : ∃ y2, cellAt g2 r c = some y2 :=
  cellAt_isSome_of_inB rows cols g2 h2 r c (inB_of_cellAt_eq_some rows cols g1 h1 r c y hy)

/-- The loop invariant of the flood-fill `while` loop, relative to the grid
`g0` the loop started on and the clicked cell `s`. -/
def FloodInv (rows cols : Nat) (g0 : Grid) (s : Int × Int) (g : Grid)
    (Q : List (Int × Int)) (V : Finset (Int × Int)) : Prop :=
  gridShape rows cols g ∧ Preserves g0 g ∧
  (∀ p ∈ Q, Reach rows cols g0 s p) ∧
  (∀ p ∈ V, Reach rows cols g0 s p) ∧
  (∀ q : Int × Int, Reach rows cols g0 s q → q ∈ V ∨ q ∈ Q ∨
    ∀ y, cellAt g q.1 q.2 = some y → y.isRevealed = false) ∧
  (∀ p ∈ V, ∀ q : Int × Int, adjOff p q → inB rows cols q.1 q.2 →
    (∀ y0, cellAt g0 q.1 q.2 = some y0 → y0.isFlagged = false → y0.isMine = false →
      ∀ y, cellAt g q.1 q.2 = some y → y.isRevealed = true)) ∧
  (∀ (r c : Int) (y : CellState), cellAt g r c = some y → y.isRevealed = true →
    (∀ y0, cellAt g0 r c = some y0 → y0.isRevealed = true) ∨
    (∃ p ∈ V, adjOff p (r, c) ∧
      ∃ y0, cellAt g0 r c = some y0 ∧ y0.isRevealed = false ∧ y0.isFlagged = false ∧
        y0.isMine = false))

/-- True 8-neighbor adjacency (the spec's "connected (8-neighbor)" relation,
without the self offset). -/
def adj8 (p q : Int × Int) : Prop :=
  ∃ d ∈ offsets8, q = (p.1 + d.1, p.2 + d.2)

theorem offsets_mem_cases (d : Int × Int) (h : d ∈ offsets) :
    d = ((0 : Int), (0 : Int)) ∨ d ∈ offsets8 := by
  simp only [offsets, List.mem_cons, List.not_mem_nil, or_false] at h
  rcases h with rfl | rfl | rfl | rfl | rfl | rfl | rfl | rfl | rfl
  · right; decide
  · right; decide
  · right; decide
  · right; decide
  · left; rfl
  · right; decide
  · right; decide
  · right; decide
  · right; decide

theorem offsets8_sub (d : Int × Int) (h : d ∈ offsets8) : d ∈ offsets := by
  simp only [offsets8, List.mem_cons, List.not_mem_nil, or_false] at h
  rcases h with rfl | rfl | rfl | rfl | rfl | rfl | rfl | rfl <;> decide

theorem adj8_adjOff (p q : Int × Int) (h : adj8 p q) : adjOff p q := by
  obtain ⟨d, hd, hq⟩ := h
  exact ⟨d, offsets8_sub d hd, hq⟩

/-- The spec's "maximal connected (8-neighbor) region of unrevealed, unflagged
zero-count cells containing it": the closure, in the board `G` as it stands
before the reveal, of the clicked cell `s` under steps to in-bounds,
unrevealed, unflagged, non-mine cells whose `neighborMineCount` is zero.
This definition follows the claim's words, for comparison with the code's
flood fill. -/
inductive ZeroRegion (rows cols : Nat) (G : Grid) (s : Int × Int) : Int × Int → Prop
  | base : ZeroRegion rows cols G s s
  | step (p q : Int × Int) : ZeroRegion rows cols G s p → adj8 p q →
      inB rows cols q.1 q.2 →
      (∃ y, cellAt G q.1 q.2 = some y ∧ y.isRevealed = false ∧ y.isFlagged = false ∧
        y.isMine = false ∧ y.neighborMines = 0) →
      ZeroRegion rows cols G s q

/-- The spec's "immediate non-zero-count unflagged border cells" of the zero
region: in-bounds 8-neighbors of a region cell that are unrevealed, unflagged,
not mines, and have a non-zero count.  This definition follows the claim's
words. -/
def ZeroBorder (rows cols : Nat) (G : Grid) (s q : Int × Int) : Prop :=
  ∃ p, ZeroRegion rows cols G s p ∧ adj8 p q ∧ inB rows cols q.1 q.2 ∧
    ∃ y, cellAt G q.1 q.2 = some y ∧ y.isRevealed = false ∧ y.isFlagged = false ∧
      y.isMine = false ∧ y.neighborMines ≠ 0

theorem ZeroRegion_cell (rows cols : Nat) (G : Grid) (s q : Int × Int)
    (h : ZeroRegion rows cols G s q) :
    q = s ∨ ∃ y, cellAt G q.1 q.2 = some y ∧ y.isRevealed = false ∧
      y.isFlagged = false ∧ y.isMine = false ∧ y.neighborMines = 0 := by
  cases h with
  | base => exact Or.inl rfl
  | step p q hp hadj hin hy => exact Or.inr hy

theorem floodFill_inv (rows cols : Nat) (g0 : Grid) (s : Int × Int)
    (hsh0 : gridShape rows cols g0)
    (hs : ∃ ys, cellAt g0 s.1 s.2 = some ys ∧ ys.isRevealed = true) :
    ∀ (g : Grid) (Q : List (Int × Int)) (V : Finset (Int × Int)),
      FloodInv rows cols g0 s g Q V →
      ∃ Vf, FloodInv rows cols g0 s (floodFill rows cols g Q V) [] Vf := by
  intro g Q V
  induction g, Q, V using floodFill.induct rows cols with
  | case1 g V =>
    intro hinv
    refine ⟨V, ?_⟩
    simp only [floodFill]
    exact hinv
  | case2 g p rest V hpV ih =>
    intro hinv
    simp only [floodFill, if_pos hpV]
    apply ih
    obtain ⟨i1, i2, i3, i4, i5, i6, i7⟩ := hinv
    refine ⟨i1, i2, fun q hq => i3 q (List.mem_cons_of_mem p hq), i4, ?_, i6, i7⟩
    intro q hq
    rcases i5 q hq with h | h | h
    · exact Or.inl h
    · rcases List.mem_cons.mp h with rfl | h2
      · exact Or.inl hpV
      · exact Or.inr (Or.inl h2)
    · exact Or.inr (Or.inr h)
  | case3 g p rest V hpV s1 ih =>
    intro hinv
    simp only [floodFill, if_neg hpV]
    apply ih
    obtain ⟨i1, i2, i3, i4, i5, i6, i7⟩ := hinv
    obtain ⟨P1, P2⟩ := floodNeighbors_char rows cols offsets (by decide) g p i1
    have hpR : Reach rows cols g0 s p := i3 p (List.mem_cons_self p rest)
    have hsh1 : gridShape rows cols (floodNeighbors rows cols g p offsets).1 :=
      floodNeighbors_shape rows cols offsets g p i1
    have hpres1 : Preserves g (floodNeighbors rows cols g p offsets).1 := by
      intro r c x hx
      rw [P1 r c, hx]
      by_cases hC : (∃ d ∈ offsets, ((r, c) : Int × Int) = (p.1 + d.1, p.2 + d.2)) ∧
          x.isRevealed = false ∧ x.isFlagged = false ∧ x.isMine = false
      · simp only [Option.map_some', if_pos hC]
        exact ⟨_, rfl, rfl, rfl, rfl, fun _ => rfl⟩
      · simp only [Option.map_some', if_neg hC]
        exact ⟨x, rfl, rfl, rfl, rfl, fun h => h⟩
    refine ⟨hsh1, Preserves_trans g0 g _ i2 hpres1, ?_, ?_, ?_, ?_, ?_⟩
    · -- every queued position is reachable
      intro q hq
      rcases List.mem_append.mp hq with hq | hq
      · exact i3 q (List.mem_cons_of_mem p hq)
      · obtain ⟨hD, hqin, y, hy, hyr, hyf, hym, hyn⟩ := (P2 q).mp hq
        obtain ⟨y0, hy0⟩ := cells_same_domain rows cols g g0 i1 hsh0 q.1 q.2 y hy
        obtain ⟨y', hy', e1, e2, e3, e4⟩ := i2 q.1 q.2 y0 hy0
        rw [hy] at hy'
        injection hy' with he
        subst he
        have hy0r : y0.isRevealed = false := by
          cases h0 : y0.isRevealed
          · rfl
          · rw [e4 h0] at hyr
            exact Bool.noConfusion hyr
        exact Reach.step p q hpR hD hqin
          ⟨y0, hy0, hy0r, by rw [← e2]; exact hyf, by rw [← e1]; exact hym,
            by rw [← e3]; exact hyn⟩
    · -- every visited position is reachable
      intro q hq
      rcases Finset.mem_insert.mp hq with rfl | hq
      · exact hpR
      · exact i4 q hq
    · -- every reachable position is visited, queued, or still unrevealed
      intro q hq
      rcases i5 q hq with h | h | h
      · exact Or.inl (Finset.mem_insert_of_mem h)
      · rcases List.mem_cons.mp h with rfl | h2
        · exact Or.inl (Finset.mem_insert_self q V)
        · exact Or.inr (Or.inl (List.mem_append_left _ h2))
      · rcases hcell : cellAt g q.1 q.2 with _ | y
        · refine Or.inr (Or.inr ?_)
          intro y' hy'
          rw [P1 q.1 q.2, hcell] at hy'
          exact absurd hy' (by simp)
        · have hyr : y.isRevealed = false := h y hcell
          cases hq with
          | base =>
            obtain ⟨ys, hys, hysr⟩ := hs
            obtain ⟨y', hy', e1, e2, e3, e4⟩ := i2 s.1 s.2 ys hys
            rw [hcell] at hy'
            injection hy' with he
            rw [← he] at e4
            rw [e4 hysr] at hyr
            exact Bool.noConfusion hyr
          | step p' q' hp' hadj' hin' hyg0 =>
            obtain ⟨y0, hy0, hy0r, hy0f, hy0m, hy0n⟩ := hyg0
            obtain ⟨y', hy', e1, e2, e3, e4⟩ := i2 q.1 q.2 y0 hy0
            rw [hcell] at hy'
            injection hy' with he
            subst he
            by_cases hD : ∃ d ∈ offsets, q = (p.1 + d.1, p.2 + d.2)
            · refine Or.inr (Or.inl (List.mem_append_right rest ?_))
              exact (P2 q).mpr ⟨hD, hin', y, hcell, hyr, by rw [e2]; exact hy0f,
                by rw [e1]; exact hy0m, by rw [e3]; exact hy0n⟩
            · refine Or.inr (Or.inr ?_)
              intro y'' hy''
              rw [P1 q.1 q.2, hcell] at hy''
              simp only [Option.map_some'] at hy''
              split at hy''
              · rename_i hcond
                exact absurd hcond.1 hD
              · injection hy'' with he2
                rw [← he2]
                exact hyr
    · -- eligible neighbors of visited positions are revealed
      intro p' hp' q hadj hqin y0 hy0 hy0f hy0m y hy
      rcases Finset.mem_insert.mp hp' with rfl | hp'V
      · rcases hcell : cellAt g q.1 q.2 with _ | yg
        · rw [P1 q.1 q.2, hcell] at hy
          exact absurd hy (by simp)
        · rw [P1 q.1 q.2, hcell] at hy
          simp only [Option.map_some'] at hy
          obtain ⟨y', hy', e1, e2, e3, e4⟩ := i2 q.1 q.2 y0 hy0
          rw [hcell] at hy'
          injection hy' with he
          subst he
          injection hy with he2
          subst he2
          by_cases hCr : yg.isRevealed = false
          · have hcond : (∃ d ∈ offsets, ((q.1, q.2) : Int × Int) = (p'.1 + d.1, p'.2 + d.2)) ∧
                yg.isRevealed = false ∧ yg.isFlagged = false ∧ yg.isMine = false := by
              refine ⟨?_, hCr, by rw [e2]; exact hy0f, by rw [e1]; exact hy0m⟩
              obtain ⟨d, hd, he3⟩ := hadj
              exact ⟨d, hd, by rw [he3]⟩
            rw [if_pos hcond]
          · rw [if_neg (by rintro ⟨h1, h2, h3⟩; exact hCr h2)]
            rcases Bool.eq_false_or_eq_true yg.isRevealed with hb | hb
            · exact hb
            · exact absurd hb hCr
      · rcases hcell : cellAt g q.1 q.2 with _ | yg
        · rw [P1 q.1 q.2, hcell] at hy
          exact absurd hy (by simp)
        · have hgr : yg.isRevealed = true :=
            i6 p' hp'V q hadj hqin y0 hy0 hy0f hy0m yg hcell
          rw [P1 q.1 q.2, hcell] at hy
          simp only [Option.map_some'] at hy
          injection hy with he2
          subst he2
          rw [if_neg (by rintro ⟨h1, h2, h3⟩; rw [hgr] at h2; exact Bool.noConfusion h2)]
          exact hgr
    · -- every revealed cell was revealed before or borders a visited position
      intro r c y hy hyrev
      rw [P1 r c] at hy
      rcases hcell : cellAt g r c with _ | yg
      · rw [hcell] at hy
        exact absurd hy (by simp)
      · rw [hcell] at hy
        simp only [Option.map_some'] at hy
        injection hy with he2
        subst he2
        by_cases hC : (∃ d ∈ offsets, ((r, c) : Int × Int) = (p.1 + d.1, p.2 + d.2)) ∧
            yg.isRevealed = false ∧ yg.isFlagged = false ∧ yg.isMine = false
        · obtain ⟨hD, hgr, hgf, hgm⟩ := hC
          obtain ⟨y0, hy0⟩ := cells_same_domain rows cols g g0 i1 hsh0 r c yg hcell
          obtain ⟨y', hy', e1, e2, e3, e4⟩ := i2 r c y0 hy0
          rw [hcell] at hy'
          injection hy' with he
          subst he
          have hy0r : y0.isRevealed = false := by
            cases h0 : y0.isRevealed
            · rfl
            · rw [e4 h0] at hgr
              exact Bool.noConfusion hgr
          exact Or.inr ⟨p, Finset.mem_insert_self p V, hD, y0, hy0, hy0r,
            by rw [← e2]; exact hgf, by rw [← e1]; exact hgm⟩
        · rw [if_neg hC] at hyrev
          rcases i7 r c yg hcell hyrev with h | ⟨p', hp'V, hrest⟩
          · exact Or.inl h
          · exact Or.inr ⟨p', Finset.mem_insert_of_mem hp'V, hrest⟩

theorem reach_mem_visited (rows cols : Nat) (g0 : Grid) (s : Int × Int)
    (hsh0 : gridShape rows cols g0)
    (hs : ∃ ys, cellAt g0 s.1 s.2 = some ys ∧ ys.isRevealed = true)
    (gf : Grid) (Vf : Finset (Int × Int))
    (hinv : FloodInv rows cols g0 s gf [] Vf) :
    ∀ q, Reach rows cols g0 s q → q ∈ Vf := by
  obtain ⟨i1, i2, i3, i4, i5, i6, i7⟩ := hinv
  intro q hq
  induction hq with
  | base =>
    rcases i5 s Reach.base with h | h | h
    · exact h
    · exact absurd h (List.not_mem_nil s)
    · obtain ⟨ys, hys, hysr⟩ := hs
      obtain ⟨y', hy', e1, e2, e3, e4⟩ := i2 s.1 s.2 ys hys
      have h1 := e4 hysr
      rw [h y' hy'] at h1
      exact absurd h1 (Bool.noConfusion)
  | step p q hp hadj hqin hy0ex ih =>
    obtain ⟨y0, hy0, hy0r, hy0f, hy0m, hy0n⟩ := hy0ex
    rcases i5 q (Reach.step p q hp hadj hqin ⟨y0, hy0, hy0r, hy0f, hy0m, hy0n⟩)
      with h | h | h
    · exact h
    · exact absurd h (List.not_mem_nil q)
    · obtain ⟨y, hy⟩ := cells_same_domain rows cols g0 gf hsh0 i1 q.1 q.2 y0 hy0
      have h1 := i6 p ih q hadj hqin y0 hy0 hy0f hy0m y hy
      rw [h y hy] at h1
      exact absurd h1 (Bool.noConfusion)

theorem floodFill_char (rows cols : Nat) (g0 : Grid) (s : Int × Int)
    (hsh0 : gridShape rows cols g0)
    (hs : ∃ ys, cellAt g0 s.1 s.2 = some ys ∧ ys.isRevealed = true) :
    gridShape rows cols (floodFill rows cols g0 [s] ∅) ∧
    ∀ (r c : Int) (y0 : CellState), cellAt g0 r c = some y0 →
      ∃ y, cellAt (floodFill rows cols g0 [s] ∅) r c = some y ∧
        y.isMine = y0.isMine ∧ y.isFlagged = y0.isFlagged ∧
        y.neighborMines = y0.neighborMines ∧
        (y.isRevealed = true ↔ (y0.isRevealed = true ∨
          ∃ p, Reach rows cols g0 s p ∧ adjOff p (r, c) ∧
            y0.isFlagged = false ∧ y0.isMine = false)) := by
  have hinit : FloodInv rows cols g0 s g0 [s] ∅ := by
    refine ⟨hsh0, Preserves_refl g0, ?_, ?_, ?_, ?_, ?_⟩
    · intro q hq
      rcases List.mem_cons.mp hq with rfl | h
      · exact Reach.base
      · exact absurd h (List.not_mem_nil q)
    · intro q hq
      exact absurd hq (Finset.not_mem_empty q)
    · intro q hq
      cases hq with
      | base => exact Or.inr (Or.inl (List.mem_cons_self s []))
      | step p q hp hadj hqin hy0ex =>
        refine Or.inr (Or.inr ?_)
        obtain ⟨y0, hy0, hy0r, _⟩ := hy0ex
        intro y hy
        rw [hy0] at hy
        injection hy with he
        rw [← he]
        exact hy0r
    · intro p' hp'
      exact absurd hp' (Finset.not_mem_empty p')
    · intro r c y hy hyrev
      refine Or.inl ?_
      intro y0 hy0
      rw [hy0] at hy
      injection hy with he
      rw [he]
      exact hyrev
  obtain ⟨Vf, hfin⟩ := floodFill_inv rows cols g0 s hsh0 hs g0 [s] ∅ hinit
  have hmem := reach_mem_visited rows cols g0 s hsh0 hs _ Vf hfin
  obtain ⟨i1, i2, i3, i4, i5, i6, i7⟩ := hfin
  refine ⟨i1, ?_⟩
  intro r c y0 hy0
  obtain ⟨y, hy, e1, e2, e3, e4⟩ := i2 r c y0 hy0
  refine ⟨y, hy, e1, e2, e3, ?_⟩
  constructor
  · intro hrev
    rcases i7 r c y hy hrev with h | ⟨p', hp'V, hadj, y0', hy0', h1, h2, h3⟩
    · exact Or.inl (h y0 hy0)
    · rw [hy0] at hy0'
      injection hy0' with he
      rw [← he] at h2 h3
      exact Or.inr ⟨p', i4 p' hp'V, hadj, h2, h3⟩
  · intro h
    rcases h with h | ⟨p, hpR, hadj, hf, hm⟩
    · exact e4 h
    · have hqin : inB rows cols r c := inB_of_cellAt_eq_some rows cols g0 hsh0 r c y0 hy0
      exact i6 p (hmem p hpR) (r, c) hadj hqin y0 hy0 hf hm y hy

theorem reach_iff_zeroRegion (rows cols : Nat) (G : Grid) (row col : Int)
    (hr0 : 0 ≤ row) (hc0 : 0 ≤ col) (x : CellState)
    (hx : cellAt G row col = some x) (hxr : x.isRevealed = false) :
    ∀ q, Reach rows cols
        (updateCellN G row.toNat col.toNat fun y => { y with isRevealed := true })
        (row, col) q ↔ ZeroRegion rows cols G (row, col) q := by
  have hself : cellAt (updateCellN G row.toNat col.toNat fun y =>
      { y with isRevealed := true }) row col = some { x with isRevealed := true } := by
    rw [cellAt_update_self G row col hr0 hc0, hx]
    rfl
  intro q
  constructor
  · intro hq
    induction hq with
    | base => exact ZeroRegion.base
    | step p q hp hadj hqin hyex ih =>
      obtain ⟨y, hy, hyr, hyf, hym, hyn⟩ := hyex
      by_cases hqs : q = (row, col)
      · exfalso
        rw [hqs] at hy
        have hy' : cellAt (updateCellN G row.toNat col.toNat fun y =>
            { y with isRevealed := true }) row col = some y := hy
        rw [hself] at hy'
        injection hy' with he
        rw [← he] at hyr
        exact absurd hyr (by simp)
      · rw [cellAt_update_ne G row col q.1 q.2 hr0 hc0 _ hqs] at hy
        obtain ⟨d, hd, he⟩ := hadj
        rcases offsets_mem_cases d hd with rfl | hd8
        · have hqp : q = p := by
            rw [he]
            show (p.1 + 0, p.2 + 0) = p
            rw [Int.add_zero, Int.add_zero]
          rw [hqp]
          exact ih
        · exact ZeroRegion.step p q ih ⟨d, hd8, he⟩ hqin ⟨y, hy, hyr, hyf, hym, hyn⟩
  · intro hq
    induction hq with
    | base => exact Reach.base
    | step p q hp hadj8 hqin hyex ih =>
      obtain ⟨y, hy, hyr, hyf, hym, hyn⟩ := hyex
      by_cases hqs : q = (row, col)
      · rw [hqs]
        exact Reach.base
      · refine Reach.step p q ih (adj8_adjOff p q hadj8) hqin ⟨y, ?_, hyr, hyf, hym, hyn⟩
        rw [cellAt_update_ne G row col q.1 q.2 hr0 hc0 _ hqs]
        exact hy

theorem floodFill_char_pre (rows cols : Nat) (G : Grid) (row col : Int) (x : CellState)
    (hsh : gridShape rows cols G) (hx : cellAt G row col = some x)
    (hxr : x.isRevealed = false) :
    gridShape rows cols (floodFill rows cols
        (updateCellN G row.toNat col.toNat fun y => { y with isRevealed := true })
        [(row, col)] ∅) ∧
    ∀ (r c : Int) (y0 : CellState), cellAt G r c = some y0 →
      ∃ y, cellAt (floodFill rows cols
          (updateCellN G row.toNat col.toNat fun y => { y with isRevealed := true })
          [(row, col)] ∅) r c = some y ∧
        y.isMine = y0.isMine ∧ y.isFlagged = y0.isFlagged ∧
        y.neighborMines = y0.neighborMines ∧
        (y.isRevealed = true ↔ (y0.isRevealed = true ∨
          ZeroRegion rows cols G (row, col) (r, c) ∨
          ZeroBorder rows cols G (row, col) (r, c))) := by
  have hpos : 0 ≤ row ∧ 0 ≤ col := by
    by_contra hneg
    rw [cellAt_eq_none_of_neg G row col (by omega)] at hx
    exact absurd hx (by simp)
  obtain ⟨hr0, hc0⟩ := hpos
  have hsh1 : gridShape rows cols (updateCellN G row.toNat col.toNat fun y =>
      { y with isRevealed := true }) :=
    gridShape_updateCellN rows cols G _ _ _ hsh
  have hself : cellAt (updateCellN G row.toNat col.toNat fun y =>
      { y with isRevealed := true }) row col = some { x with isRevealed := true } := by
    rw [cellAt_update_self G row col hr0 hc0, hx]
    rfl
  have hbridge := reach_iff_zeroRegion rows cols G row col hr0 hc0 x hx hxr
  obtain ⟨hshf, hchar⟩ := floodFill_char rows cols
    (updateCellN G row.toNat col.toNat fun y => { y with isRevealed := true })
    (row, col) hsh1 ⟨{ x with isRevealed := true }, hself, rfl⟩
  refine ⟨hshf, ?_⟩
  intro r c y0 hy0
  by_cases hrc : ((r, c) : Int × Int) = (row, col)
  · -- the clicked cell itself: revealed, and in the region by definition
    have her : r = row := congrArg Prod.fst hrc
    have hec : c = col := congrArg Prod.snd hrc
    subst her
    subst hec
    rw [hx] at hy0
    injection hy0 with he0
    obtain ⟨y, hy, e1, e2, e3, e4⟩ := hchar r c { x with isRevealed := true } hself
    refine ⟨y, hy, by rw [e1, ← he0], by rw [e2, ← he0], by rw [e3, ← he0], ?_⟩
    constructor
    · intro _
      exact Or.inr (Or.inl ZeroRegion.base)
    · intro _
      exact e4.mpr (Or.inl rfl)
  · -- any other cell
    have hy1 : cellAt (updateCellN G row.toNat col.toNat fun y =>
        { y with isRevealed := true }) r c = some y0 := by
      rw [cellAt_update_ne G row col r c hr0 hc0 _ hrc]
      exact hy0
    obtain ⟨y, hy, e1, e2, e3, e4⟩ := hchar r c y0 hy1
    refine ⟨y, hy, e1, e2, e3, ?_⟩
    rw [e4]
    constructor
    · rintro (h | ⟨p, hpR, hadj, hf, hm⟩)
      · exact Or.inl h
      · by_cases h0r : y0.isRevealed = true
        · exact Or.inl h0r
        · have h0r' : y0.isRevealed = false := by
            rcases Bool.eq_false_or_eq_true y0.isRevealed with hb | hb
            · exact absurd hb h0r
            · exact hb
          have hpZ : ZeroRegion rows cols G (row, col) p := (hbridge p).mp hpR
          have hqin : inB rows cols r c := inB_of_cellAt_eq_some rows cols G hsh r c y0 hy0
          obtain ⟨d, hd, he⟩ := hadj
          rcases offsets_mem_cases d hd with rfl | hd8
          · -- self offset: (r, c) is p itself, already in the region
            have hpq : ((r, c) : Int × Int) = p := by
              rw [he]
              show (p.1 + 0, p.2 + 0) = p
              rw [Int.add_zero, Int.add_zero]
            refine Or.inr (Or.inl ?_)
            rw [hpq]
            exact hpZ
          · by_cases hn0 : y0.neighborMines = 0
            · exact Or.inr (Or.inl (ZeroRegion.step p (r, c) hpZ ⟨d, hd8, he⟩ hqin
                ⟨y0, hy0, h0r', hf, hm, hn0⟩))
            · exact Or.inr (Or.inr ⟨p, hpZ, ⟨d, hd8, he⟩, hqin, y0, hy0, h0r', hf, hm, hn0⟩)
    · rintro (h | h | h)
      · exact Or.inl h
      · -- a region cell other than the clicked one is a step target
        cases h with
        | base => exact absurd rfl hrc
        | step p q hp hadj8 hqin hyex =>
          obtain ⟨y', hy', hyr', hyf', hym', hyn'⟩ := hyex
          have hy'' : cellAt G r c = some y' := hy'
          rw [hy0] at hy''
          injection hy'' with he'
          refine Or.inr ⟨p, (hbridge p).mpr hp, adj8_adjOff p (r, c) hadj8, ?_, ?_⟩
          · rw [he']
            exact hyf'
          · rw [he']
            exact hym'
      · obtain ⟨p, hpZ, hadj8, hqin, y', hy', hyr', hyf', hym', hyn'⟩ := h
        have hy'' : cellAt G r c = some y' := hy'
        rw [hy0] at hy''
        injection hy'' with he'
        refine Or.inr ⟨p, (hbridge p).mpr hpZ, adj8_adjOff p (r, c) hadj8, ?_, ?_⟩
        · rw [he']
          exact hyf'
        · rw [he']
          exact hym'

/-- C6: past the first click, on a playing game, revealing an unrevealed,
unflagged, non-mine cell with `neighborMines = 0` succeeds, and in the
resulting board a cell is revealed exactly when it was already revealed,
lies in the maximal connected (8-neighbor) region of unrevealed, unflagged
zero-count cells containing the clicked cell, or is an immediate
non-zero-count unflagged non-mine border cell of that region; every cell
keeps its mine, flag and count data, and no mine cell ever changes its
reveal state. -/
theorem C6_zero_reveal_floods (rand : List (Nat × Nat)) (st : GameState) (row col : Int)
    (x : CellState) (hsh : gridShape st.rows st.cols st.grid)
    (hst : st.status = GameStatus.playing) (hfc : st.firstClick = false)
    (hx : cellAt st.grid row col = some x)
    (hxr : x.isRevealed = false) (hxf : x.isFlagged = false)
    (hxm : x.isMine = false) (hx0 : x.neighborMines = 0) :
    ∃ st2, revealCell rand st row col = Except.ok st2 ∧
      st2.status = GameStatus.playing ∧
      gridShape st.rows st.cols st2.grid ∧
      (∀ (r c : Int) (y0 : CellState), cellAt st.grid r c = some y0 →
        ∃ y, cellAt st2.grid r c = some y ∧
          y.isMine = y0.isMine ∧ y.isFlagged = y0.isFlagged ∧
          y.neighborMines = y0.neighborMines ∧
          (y.isRevealed = true ↔ (y0.isRevealed = true ∨
            ZeroRegion st.rows st.cols st.grid (row, col) (r, c) ∨
            ZeroBorder st.rows st.cols st.grid (row, col) (r, c)))) ∧
      (∀ (r c : Int) (y0 y : CellState), cellAt st.grid r c = some y0 →
        cellAt st2.grid r c = some y → y0.isMine = true →
          y.isRevealed = y0.isRevealed) := by
  obtain ⟨hshf, hchar⟩ := floodFill_char_pre st.rows st.cols st.grid row col x hsh hx hxr
  have hsafe : ∀ (r c : Int) (y0 y : CellState), cellAt st.grid r c = some y0 →
      cellAt (floodFill st.rows st.cols
        (updateCellN st.grid row.toNat col.toNat fun y => { y with isRevealed := true })
        [(row, col)] ∅) r c = some y → y0.isMine = true →
        y.isRevealed = y0.isRevealed := by
    intro r c y0 y hy0 hy hmine
    obtain ⟨y', hy', e1, e2, e3, e4⟩ := hchar r c y0 hy0
    rw [hy] at hy'
    injection hy' with he
    subst he
    cases h0 : y0.isRevealed
    · cases hyr : y.isRevealed
      · rfl
      · exfalso
        rcases e4.mp hyr with h | h | h
        · rw [h0] at h
          exact Bool.noConfusion h
        · rcases ZeroRegion_cell st.rows st.cols st.grid (row, col) (r, c) h with
            hqs | ⟨y'', hy'', _, _, hym'', _⟩
          · have her : r = row := congrArg Prod.fst hqs
            have hec : c = col := congrArg Prod.snd hqs
            subst her
            subst hec
            rw [hx] at hy0
            injection hy0 with he2
            rw [← he2] at hmine
            rw [hxm] at hmine
            exact Bool.noConfusion hmine
          · have hG : cellAt st.grid r c = some y'' := hy''
            rw [hy0] at hG
            injection hG with he2
            rw [← he2] at hym''
            rw [hmine] at hym''
            exact Bool.noConfusion hym''
        · obtain ⟨p, hpZ, hadj8, hqin, y'', hy'', _, _, hym'', _⟩ := h
          have hG : cellAt st.grid r c = some y'' := hy''
          rw [hy0] at hG
          injection hG with he2
          rw [← he2] at hym''
          rw [hmine] at hym''
          exact Bool.noConfusion hym''
    · rw [e4.mpr (Or.inl h0)]
  refine ⟨{ st with
      grid := floodFill st.rows st.cols
        (updateCellN st.grid row.toNat col.toNat fun y => { y with isRevealed := true })
        [(row, col)] ∅ }, ?_, hst, hshf, hchar, hsafe⟩
  unfold revealCell revealUpdater
  rw [if_neg (by simp [hst]), hfc, hx]
  simp only [Bool.false_eq_true, if_false, hxr, hxf, or_self, hxm, hx0,
    eq_self_iff_true, if_true]
  rfl

def gridW6 : Grid :=
  [[⟨false, false, false, 0⟩, ⟨false, false, false, 1⟩],
   [⟨false, false, false, 1⟩, ⟨true, false, false, 1⟩]]

def stW6 : GameState := ⟨2, 2, 1, gridW6, GameStatus.playing, false⟩

theorem C6_zero_reveal_floods_witness :
    (gridShape stW6.rows stW6.cols stW6.grid ∧ stW6.status = GameStatus.playing ∧
      stW6.firstClick = false ∧
      cellAt stW6.grid 0 0 = some ⟨false, false, false, 0⟩) ∧
    ∃ st2, revealCell [] stW6 0 0 = Except.ok st2 ∧
      st2.status = GameStatus.playing ∧
      gridShape stW6.rows stW6.cols st2.grid ∧
      (∀ (r c : Int) (y0 : CellState), cellAt stW6.grid r c = some y0 →
        ∃ y, cellAt st2.grid r c = some y ∧
          y.isMine = y0.isMine ∧ y.isFlagged = y0.isFlagged ∧
          y.neighborMines = y0.neighborMines ∧
          (y.isRevealed = true ↔ (y0.isRevealed = true ∨
            ZeroRegion stW6.rows stW6.cols stW6.grid (0, 0) (r, c) ∨
            ZeroBorder stW6.rows stW6.cols stW6.grid (0, 0) (r, c)))) ∧
      (∀ (r c : Int) (y0 y : CellState), cellAt stW6.grid r c = some y0 →
        cellAt st2.grid r c = some y → y0.isMine = true →
          y.isRevealed = y0.isRevealed) :=
  ⟨⟨by decide, rfl, rfl, by decide⟩,
    C6_zero_reveal_floods [] stW6 0 0 ⟨false, false, false, 0⟩ (by decide) rfl rfl
      (by decide) rfl rfl rfl rfl⟩
